import Mathlib

/-!
Verification development for the prostata-exploration microsimulation sources
(microsimulation.h, fhcrc-example.cpp, illness-death.cpp, calibperson-r.cc).

The event-report aggregator and the event-queue model work over exact
rationals, standing in for the C++ `double` template parameter `T`; the
survival computation of the cancer model, which uses transcendental
functions, is modelled over the real numbers.
-/

namespace EventReport

/-- The increments produced by one call of `EventReport::add`
(microsimulation.h, lines 292-305), for the fixed `(state, event)` pair of
that call: person-time increments per bucket start, the list of bucket
starts whose prevalence count is incremented by one, and the bucket start
whose event count is incremented (if any).  `none` at the outer level
means the call performed an out-of-bounds vector access. -/
structure AddResult where
  pt : List (ℚ × ℚ)
  prev : List ℚ
  eventBucket : Option ℚ
deriving Repr, DecidableEq

/-- `* max_element(_partition.begin(), _partition.end())` as computed by
`EventReport::setPartition` (microsimulation.h, lines 282-285): the `_max`
field.  An empty partition gives the junk value 0 (the C++ dereferences
the end iterator there). -/
def partMax : List ℚ → ℚ
  | [] => 0
  | a :: l => l.foldl max a

/-- `lower_bound(_partition.begin(), _partition.end(), lhs)` as an index:
the first index whose element is not less than `lhs` (equals `length`
when every element is less). -/
def lowerBoundIdx (p : List ℚ) (x : ℚ) : Nat :=
  p.findIdx (fun a => decide (x ≤ a))

/-- The `for (it=lo; (*it)<itmax; ++it)` loop of `EventReport::add`:
accumulates the person-time entries `(*it, min(*(it+1),rhs) - max(*it,lhs))`
and the prevalence entries (buckets with `lhs <= *it && *it < rhs`), and
returns the final loop index.  Every iterator dereference is bounds
checked; a failed check yields `none`.  The `fuel` argument only drives
the recursion; `add` passes enough for the loop to run to completion. -/
def addLoop (p : List ℚ) (itmax lhs rhs : ℚ) :
    Nat → Nat → Option (List (ℚ × ℚ) × List ℚ × Nat)
  | _, 0 => none
  | it, fuel + 1 =>
    if h : it < p.length then
      if p.get ⟨it, h⟩ < itmax then
        if h1 : it + 1 < p.length then
          match addLoop p itmax lhs rhs (it + 1) fuel with
          | none => none
          | some (pts, prevs, itF) =>
            some ((p.get ⟨it, h⟩,
                    min (p.get ⟨it + 1, h1⟩) rhs - max (p.get ⟨it, h⟩) lhs) :: pts,
                  if lhs ≤ p.get ⟨it, h⟩ ∧ p.get ⟨it, h⟩ < rhs
                    then p.get ⟨it, h⟩ :: prevs else prevs,
                  itF)
        else none
      else some ([], [], it)
    else none

/-- `EventReport::add(state, event, lhs, rhs)` (microsimulation.h,
lines 292-305), with the map updates projected onto the fixed
`(state, event)` of the call.  Mirrors the source line by line:
`lo = lower_bound(...); if (lhs<*lo) lo -= 1;`, the truncation
`itmax = rhs<_max ? rhs : _max`, the bucket loop, and the final
`if (rhs<_max) _events[state][event][*(it-1)] += 1`.  Out-of-bounds
dereferences (`*lo` past the end, the loop touching the position before
the first cutpoint) give `none`. -/
def add (p : List ℚ) (lhs rhs : ℚ) : Option AddResult :=
  let mx := partMax p
  let j := lowerBoundIdx p lhs
  if hj : j < p.length then
    let lo : Int := if lhs < p.get ⟨j, hj⟩ then (j : Int) - 1 else (j : Int)
    if 0 ≤ lo then
      match addLoop p (if rhs < mx then rhs else mx) lhs rhs lo.toNat (p.length + 1) with
      | none => none
      | some (pts, prevs, itF) =>
        if rhs < mx then
          if hF : 1 ≤ itF ∧ itF - 1 < p.length then
            some ⟨pts, prevs, some (p.get ⟨itF - 1, hF.2⟩)⟩
          else none
        else some ⟨pts, prevs, none⟩
    else none
  else none

/-- Total person-time credited by one call. -/
def ptTotal (l : List (ℚ × ℚ)) : ℚ := (l.map Prod.snd).sum

lemma getD_get {p : List ℚ} {i : Nat} (h : i < p.length) :
    p.getD i 0 = p.get ⟨i, h⟩ := by
  simp [List.getD_eq_getElem?_getD, List.getElem?_eq_getElem h]

lemma sorted_getD_lt {p : List ℚ} (hp : List.Pairwise (· < ·) p) {i j : Nat}
    (hij : i < j) (hj : j < p.length) : p.getD i 0 < p.getD j 0 := by
  have hi : i < p.length := lt_trans hij hj
  rw [getD_get hi, getD_get hj]
  exact List.pairwise_iff_get.mp hp ⟨i, hi⟩ ⟨j, hj⟩ hij

lemma sorted_getD_le {p : List ℚ} (hp : List.Pairwise (· < ·) p) {i j : Nat}
    (hij : i ≤ j) (hj : j < p.length) : p.getD i 0 ≤ p.getD j 0 := by
  rcases lt_or_eq_of_le hij with h | h
  · exact le_of_lt (sorted_getD_lt hp h hj)
  · rw [h]

lemma foldl_max_max (m : List ℚ) : ∀ x y : ℚ, m.foldl max (max x y) = max x (m.foldl max y) := by
  induction m with
  | nil => intro x y; rfl
  | cons c m ih => intro x y; rw [List.foldl_cons, List.foldl_cons, max_assoc, ih]

lemma le_foldl_max (m : List ℚ) : ∀ x : ℚ, x ≤ m.foldl max x := by
  induction m with
  | nil => intro x; exact le_refl x
  | cons c m ih =>
    intro x
    rw [List.foldl_cons]
    calc x ≤ max x c := le_max_left x c
    _ ≤ m.foldl max (max x c) := ih (max x c)

lemma mem_le_foldl_max (m : List ℚ) : ∀ (x a : ℚ), a ∈ m → a ≤ m.foldl max x := by
  induction m with
  | nil => intro x a ha; simp at ha
  | cons c m ih =>
    intro x a ha
    rw [List.foldl_cons]
    rcases List.mem_cons.mp ha with h | h
    · subst h
      calc a ≤ max x a := le_max_right x a
      _ ≤ m.foldl max (max x a) := le_foldl_max m (max x a)
    · exact ih (max x c) a h

lemma mem_le_partMax {p : List ℚ} {x : ℚ} (hx : x ∈ p) : x ≤ partMax p := by
  cases p with
  | nil => simp at hx
  | cons b m =>
    show x ≤ m.foldl max b
    rcases List.mem_cons.mp hx with h | h
    · subst h
      have h2 := foldl_max_max m x x
      rw [max_self] at h2
      rw [h2]
      exact le_max_left _ _
    · exact mem_le_foldl_max m b x h

lemma partMax_getLast {p : List ℚ} (hp : List.Pairwise (· < ·) p) (hne : p ≠ []) :
    partMax p = p.getD (p.length - 1) 0 := by
  induction p with
  | nil => exact absurd rfl hne
  | cons a l ih =>
    rcases List.eq_nil_or_concat l with h | h
    · subst h; simp [partMax]
    · have hl : l ≠ [] := by rcases h with ⟨l2, b, rfl⟩; simp
      have hIH : partMax l = l.getD (l.length - 1) 0 :=
        ih (List.Pairwise.sublist (List.sublist_cons_self a l) hp) hl
      have hlen : 0 < l.length := List.length_pos.mpr hl
      have hlast_lt : a < l.getD (l.length - 1) 0 := by
        have h2 := sorted_getD_lt (p := a :: l) hp (i := 0) (j := (l.length - 1) + 1)
          (by omega) (by simp; omega)
        rw [List.getD_cons_succ] at h2
        simpa using h2
      have hfold : partMax (a :: l) = max a (partMax l) := by
        cases l with
        | nil => simp at hl
        | cons b m =>
          show (b :: m).foldl max a = max a (m.foldl max b)
          rw [List.foldl_cons]
          exact foldl_max_max m a b
      rw [hfold, hIH, max_eq_right (le_of_lt hlast_lt)]
      have hlen2 : (a :: l).length - 1 = (l.length - 1) + 1 := by simp; omega
      rw [hlen2, List.getD_cons_succ]

lemma le_partMax {p : List ℚ} (hp : List.Pairwise (· < ·) p) {i : Nat}
    (hi : i < p.length) : p.getD i 0 ≤ partMax p := by
  have hne : p ≠ [] := by intro h; subst h; simp at hi
  rw [partMax_getLast hp hne]
  exact sorted_getD_le hp (by omega) (by omega)

lemma addLoop_spec (p : List ℚ) (itmax lhs rhs : ℚ)
    (hp : List.Pairwise (· < ·) p) :
    ∀ fuel it, it < p.length → p.length - it < fuel →
    itmax ≤ p.getD (p.length - 1) 0 →
    ∃ pts prevs itF,
      addLoop p itmax lhs rhs it fuel = some (pts, prevs, itF) ∧
      it ≤ itF ∧ itF < p.length ∧ itmax ≤ p.getD itF 0 ∧
      (∀ j, it ≤ j → j < itF → p.getD j 0 < itmax) ∧
      pts = (List.range' it (itF - it)).map
        (fun j => (p.getD j 0, min (p.getD (j + 1) 0) rhs - max (p.getD j 0) lhs)) ∧
      prevs = ((List.range' it (itF - it)).filter
        (fun j => decide (lhs ≤ p.getD j 0) && decide (p.getD j 0 < rhs))).map
        (fun j => p.getD j 0) := by
  intro fuel
  induction fuel with
  | zero => intro it _ hfu; omega
  | succ fuel ih =>
    intro it hit hfu hmax
    by_cases hlt : p.get ⟨it, hit⟩ < itmax
    · have hit1 : it + 1 < p.length := by
        rcases Nat.lt_or_ge (it + 1) p.length with h | h
        · exact h
        · exfalso
          have : it = p.length - 1 := by omega
          rw [← getD_get hit, this] at hlt
          exact absurd hmax (not_le_of_lt hlt)
      obtain ⟨pts, prevs, itF, heq, h1, h2, h3, h4, h5, h6⟩ :=
        ih (it + 1) hit1 (by omega) hmax
      refine ⟨(p.get ⟨it, hit⟩,
          min (p.get ⟨it + 1, hit1⟩) rhs - max (p.get ⟨it, hit⟩) lhs) :: pts,
        if lhs ≤ p.get ⟨it, hit⟩ ∧ p.get ⟨it, hit⟩ < rhs
          then p.get ⟨it, hit⟩ :: prevs else prevs,
        itF, ?_, by omega, h2, h3, ?_, ?_, ?_⟩
      · show addLoop p itmax lhs rhs it (fuel + 1) = _
        rw [addLoop, dif_pos hit, if_pos hlt, dif_pos hit1, heq]
      · intro j hj1 hj2
        rcases Nat.eq_or_lt_of_le hj1 with h | h
        · rw [← h, getD_get hit]; exact hlt
        · exact h4 j h hj2
      · have hn : itF - it = (itF - (it + 1)) + 1 := by omega
        rw [hn, List.range'_succ, List.map_cons, ← h5, getD_get hit, getD_get hit1]
      · have hn : itF - it = (itF - (it + 1)) + 1 := by omega
        have hgd : p.getD it 0 = p.get ⟨it, hit⟩ := getD_get hit
        rw [hn, List.range'_succ, List.filter_cons]
        by_cases hc : lhs ≤ p.get ⟨it, hit⟩ ∧ p.get ⟨it, hit⟩ < rhs
        · rw [if_pos hc]
          have hd : (decide (lhs ≤ p.getD it 0) && decide (p.getD it 0 < rhs)) = true := by
            rw [hgd]; simp only [Bool.and_eq_true, decide_eq_true_eq]; exact hc
          rw [if_pos hd, List.map_cons, ← h6, hgd]
        · rw [if_neg hc]
          have hd : ¬((decide (lhs ≤ p.getD it 0) && decide (p.getD it 0 < rhs)) = true) := by
            rw [hgd]; simp only [Bool.and_eq_true, decide_eq_true_eq]; exact hc
          rw [if_neg hd, ← h6]
    · refine ⟨[], [], it, ?_, le_refl it, hit, ?_, ?_, by simp, by simp⟩
      · show addLoop p itmax lhs rhs it (fuel + 1) = _
        rw [addLoop, dif_pos hit, if_neg hlt]
      · rw [getD_get hit]; exact le_of_not_lt hlt
      · intro j h1 h2; omega

lemma ite_min (a b : ℚ) : (if a < b then a else b) = min a b := by
  rcases lt_trichotomy a b with h | h | h
  · rw [if_pos h, min_eq_left (le_of_lt h)]
  · rw [h, if_neg (lt_irrefl b), min_self]
  · rw [if_neg (not_lt_of_lt h), min_eq_right (le_of_lt h)]

/-- Full characterisation of a successful call of `EventReport.add`:
under the preconditions (strictly increasing non-empty partition,
`a0 <= lhs <= rhs`, `lhs <= _max`, and not the corner `lhs = rhs = a0 < _max`
that reads before the first cutpoint) there are indices `lo <= itF` such
that the person-time entries are exactly the buckets `lo, .., itF - 1`,
prevalence is the subset of those buckets inside `[lhs, rhs)`, and the
event (when `rhs < _max`) goes to bucket `itF - 1`. -/
lemma add_full (p : List ℚ) (lhs rhs : ℚ)
    (hp : List.Pairwise (· < ·) p) (hne : p ≠ [])
    (h0 : p.getD 0 0 ≤ lhs) (hlr : lhs ≤ rhs) (hmx : lhs ≤ partMax p)
    (hev : ¬(lhs = rhs ∧ lhs = p.getD 0 0 ∧ rhs < partMax p)) :
    ∃ lo itF : Nat,
      lo ≤ itF ∧ itF < p.length ∧
      p.getD lo 0 ≤ lhs ∧
      (∀ j, lo < j → j < p.length → lhs < p.getD j 0) ∧
      (∀ j, j < lo → p.getD j 0 < lhs) ∧
      min rhs (partMax p) ≤ p.getD itF 0 ∧
      (∀ j, lo ≤ j → j < itF → p.getD j 0 < min rhs (partMax p)) ∧
      (rhs < partMax p → 1 ≤ itF) ∧
      add p lhs rhs = some
        ⟨(List.range' lo (itF - lo)).map
            (fun j => (p.getD j 0, min (p.getD (j + 1) 0) rhs - max (p.getD j 0) lhs)),
          ((List.range' lo (itF - lo)).filter
            (fun j => decide (lhs ≤ p.getD j 0) && decide (p.getD j 0 < rhs))).map
            (fun j => p.getD j 0),
          if rhs < partMax p then some (p.getD (itF - 1) 0) else none⟩ := by
  have hlen : 0 < p.length := List.length_pos.mpr hne
  have hmxlast : partMax p = p.getD (p.length - 1) 0 := partMax_getLast hp hne
  set j0 := lowerBoundIdx p lhs with hj0def
  have hj0lt : j0 < p.length := by
    apply List.findIdx_lt_length_of_exists
    refine ⟨p.get ⟨p.length - 1, by omega⟩, List.get_mem p _ _, ?_⟩
    rw [← getD_get (show p.length - 1 < p.length by omega), ← hmxlast]
    exact decide_eq_true hmx
  have hj0ge : lhs ≤ p.getD j0 0 := by
    rw [getD_get hj0lt]
    exact of_decide_eq_true
      (List.findIdx_getElem (p := fun a => decide (lhs ≤ a)) (w := hj0lt))
  have hj0lo : ∀ i, i < j0 → p.getD i 0 < lhs := by
    intro i hi
    have hilen : i < p.length := lt_trans hi hj0lt
    have h2 := List.not_of_lt_findIdx (p := fun a => decide (lhs ≤ a)) hi
    rw [getD_get hilen]
    exact lt_of_not_le fun hc => by simp [of_decide_eq_false h2] at hc
  -- the adjusted start index lo and its properties
  obtain ⟨lo, hlo, hloLe, hloGt, hloLtj, hloeq⟩ :
      ∃ lo : Nat, lo < p.length ∧ p.getD lo 0 ≤ lhs ∧
        (∀ j, lo < j → j < p.length → lhs < p.getD j 0) ∧
        (∀ j, j < lo → p.getD j 0 < lhs) ∧
        (if lhs < p.get ⟨j0, hj0lt⟩ then (j0 : Int) - 1 else (j0 : Int)) = (lo : Int) := by
    rcases lt_or_le lhs (p.getD j0 0) with hcase | hcase
    · have hj0pos : 0 < j0 := by
        rcases Nat.eq_zero_or_pos j0 with h | h
        · rw [h] at hcase; exact absurd h0 (not_le_of_lt hcase)
        · exact h
      refine ⟨j0 - 1, by omega, le_of_lt (hj0lo (j0 - 1) (by omega)), ?_, ?_, ?_⟩
      · intro j hj1 hj2
        exact lt_of_lt_of_le hcase (sorted_getD_le hp (by omega) hj2)
      · intro j hj
        exact hj0lo j (by omega)
      · rw [if_pos ((getD_get hj0lt) ▸ hcase)]
        omega
    · have heq : p.getD j0 0 = lhs := le_antisymm hcase hj0ge
      refine ⟨j0, hj0lt, le_of_eq heq, ?_, hj0lo, ?_⟩
      · intro j hj1 hj2
        have h2 := sorted_getD_lt hp hj1 hj2
        rw [heq] at h2; exact h2
      · rw [if_neg ((getD_get hj0lt) ▸ (not_lt_of_le hcase))]
  -- run the loop
  have hitm : (if rhs < partMax p then rhs else partMax p) = min rhs (partMax p) :=
    ite_min rhs (partMax p)
  have hitmle : min rhs (partMax p) ≤ p.getD (p.length - 1) 0 := by
    rw [← hmxlast]; exact min_le_right _ _
  obtain ⟨pts, prevs, itF, hloop, hF1, hF2, hF3, hF4, hF5, hF6⟩ :=
    addLoop_spec p (min rhs (partMax p)) lhs rhs hp (p.length + 1) lo hlo (by omega) hitmle
  have hitF1 : rhs < partMax p → 1 ≤ itF := by
    intro hrm
    by_contra hcon
    have hF0 : itF = 0 := by omega
    have hlo0 : lo = 0 := by omega
    have h3 : rhs ≤ p.getD 0 0 := by
      rw [← min_eq_left (le_of_lt hrm), ← hF0]; exact hF3
    have h4 : p.getD 0 0 ≤ lhs := by rw [← hlo0]; exact hloLe
    exact hev ⟨le_antisymm hlr (le_trans h3 h4),
      (le_antisymm h4 (le_trans hlr h3)).symm, hrm⟩
  refine ⟨lo, itF, hF1, hF2, hloLe, hloGt, hloLtj, hF3, hF4, hitF1, ?_⟩
  show add p lhs rhs = _
  unfold add
  rw [dif_pos hj0lt]
  simp only [hloeq]
  rw [if_pos (Int.natCast_nonneg lo), Int.toNat_natCast, hitm, hloop]
  rw [hF5, hF6]
  dsimp only
  rcases lt_or_le rhs (partMax p) with hrm | hrm
  · rw [if_pos hrm]
    have hFdim : 1 ≤ itF ∧ itF - 1 < p.length := ⟨hitF1 hrm, by omega⟩
    rw [dif_pos hFdim, if_pos hrm, getD_get hFdim.2]
  · rw [if_neg (not_lt_of_le hrm), if_neg (not_lt_of_le hrm)]

lemma ptTotal_cons (x : ℚ × ℚ) (xs : List (ℚ × ℚ)) :
    ptTotal (x :: xs) = x.2 + ptTotal xs := by
  simp [ptTotal]

lemma ptTotal_range' (p : List ℚ) (lhs rhs : ℚ) :
    ∀ (n lo : Nat),
    (∀ j, lo < j → j ≤ lo + n → lhs ≤ p.getD j 0) →
    (∀ j, lo ≤ j → j < lo + n → p.getD j 0 < rhs) →
    ptTotal ((List.range' lo n).map
      (fun j => (p.getD j 0, min (p.getD (j + 1) 0) rhs - max (p.getD j 0) lhs))) =
      (if n = 0 then 0 else min (p.getD (lo + n) 0) rhs - max (p.getD lo 0) lhs) := by
  intro n
  induction n with
  | zero => intro lo _ _; simp [ptTotal]
  | succ n ih =>
    intro lo h1 h2
    rw [List.range'_succ, List.map_cons, ptTotal_cons]
    rw [ih (lo + 1) (fun j hj1 hj2 => h1 j (by omega) (by omega))
          (fun j hj1 hj2 => h2 j (by omega) (by omega))]
    rcases Nat.eq_zero_or_pos n with hn | hn
    · subst hn
      simp
    · rw [if_neg (by omega), if_neg (by omega)]
      have ha : max (p.getD (lo + 1) 0) lhs = p.getD (lo + 1) 0 :=
        max_eq_left (h1 (lo + 1) (by omega) (by omega))
      have hb : min (p.getD (lo + 1) 0) rhs = p.getD (lo + 1) 0 :=
        min_eq_left (le_of_lt (h2 (lo + 1) (by omega) (by omega)))
      rw [ha, hb]
      have hc : lo + 1 + n = lo + (n + 1) := by omega
      rw [hc]
      ring

/-- The total person-time credited by a successful call is
`min(rhs, _max) - lhs`: the interval is credited in full when it lies
inside the partition, and truncated at `_max` otherwise. -/
lemma add_ptTotal (p : List ℚ) (lhs rhs : ℚ)
    (hp : List.Pairwise (· < ·) p) (hne : p ≠ [])
    (h0 : p.getD 0 0 ≤ lhs) (hlr : lhs ≤ rhs) (hmx : lhs ≤ partMax p)
    (hev : ¬(lhs = rhs ∧ lhs = p.getD 0 0 ∧ rhs < partMax p)) :
    ∃ r : AddResult, add p lhs rhs = some r ∧
      ptTotal r.pt = min rhs (partMax p) - lhs := by
  obtain ⟨lo, itF, hF1, hF2, hloLe, hloGt, hloLtj, hF3, hF4, hitF1, heq⟩ :=
    add_full p lhs rhs hp hne h0 hlr hmx hev
  refine ⟨_, heq, ?_⟩
  show ptTotal ((List.range' lo (itF - lo)).map _) = _
  rw [ptTotal_range' p lhs rhs (itF - lo) lo
    (fun j hj1 hj2 => le_of_lt (hloGt j hj1 (by omega)))
    (fun j hj1 hj2 => lt_of_lt_of_le (hF4 j hj1 (by omega)) (min_le_left _ _))]
  have hminle : lhs ≤ min rhs (partMax p) := le_min hlr hmx
  rcases Nat.eq_zero_or_pos (itF - lo) with hn | hn
  · rw [if_pos hn]
    have hEq : lo = itF := by omega
    have h2 : min rhs (partMax p) ≤ lhs := le_trans (hEq ▸ hF3) hloLe
    have h3 : min rhs (partMax p) = lhs := le_antisymm h2 hminle
    rw [h3]; ring
  · rw [if_neg (by omega)]
    have hc : lo + (itF - lo) = itF := by omega
    rw [hc, max_eq_right hloLe]
    congr 1
    rcases lt_or_le rhs (partMax p) with hrm | hrm
    · have h2 : min rhs (partMax p) = rhs := min_eq_left (le_of_lt hrm)
      rw [h2] at hF3 ⊢
      exact min_eq_right hF3
    · have h2 : min rhs (partMax p) = partMax p := min_eq_right hrm
      rw [h2] at hF3 ⊢
      have h3 : p.getD itF 0 = partMax p := le_antisymm (le_partMax hp hF2) hF3
      rw [h3]
      exact min_eq_left hrm

end EventReport

/-- One individual run as seen by the reporter: the handler of both models
calls `report.add(state, kind, previousEventTime, now())` on every
dispatched message (fhcrc-example.cpp line 361, illness-death.cpp line 45),
with `previousEventTime` starting at 0 (cProcess constructor,
microsimulation.h line 92).  `runPT p prev ts` folds those calls over the
dispatch times `ts` and sums the person-time they credit; `none` records
that some call performed an out-of-bounds access. -/
def runPT (p : List ℚ) : ℚ → List ℚ → Option ℚ
  | _, [] => some 0
  | prev, t :: ts =>
    match EventReport.add p prev t, runPT p t ts with
    | some r, some s => some (EventReport.ptTotal r.pt + s)
    | _, _ => none

lemma runPT_spec (p : List ℚ)
    (hp : List.Pairwise (· < ·) p) (hne : p ≠ []) (hhead : p.getD 0 0 = 0) :
    ∀ (ts : List ℚ) (prev dAge : ℚ), List.Chain (· ≤ ·) prev ts →
    0 ≤ prev → prev ≤ EventReport.partMax p →
    (∀ t ∈ ts, 0 < t) → (∀ t ∈ ts.dropLast, t ≤ EventReport.partMax p) →
    ts.getLast? = some dAge →
    runPT p prev ts = some (min dAge (EventReport.partMax p) - prev) := by
  intro ts
  induction ts with
  | nil => intro prev dAge _ _ _ _ _ hlast; simp at hlast
  | cons t ts ih =>
    intro prev dAge hchain h0p hpmx hpos hdrop hlast
    have hprevt : prev ≤ t := List.rel_of_chain_cons hchain
    have htpos : 0 < t := hpos t (List.mem_cons_self t ts)
    have hadd : ∃ r : EventReport.AddResult, EventReport.add p prev t = some r ∧
        EventReport.ptTotal r.pt = min t (EventReport.partMax p) - prev := by
      apply EventReport.add_ptTotal p prev t hp hne (by rw [hhead]; exact h0p) hprevt hpmx
      rintro ⟨h1, h2, _⟩
      rw [hhead] at h2
      rw [← h1, h2] at htpos
      exact lt_irrefl 0 htpos
    obtain ⟨r, hr, hrpt⟩ := hadd
    cases ts with
    | nil =>
      have hd : t = dAge := by simpa using hlast
      subst hd
      show (match EventReport.add p prev t, runPT p t [] with
        | some r, some s => some (EventReport.ptTotal r.pt + s)
        | _, _ => none) = _
      rw [hr]
      show some (EventReport.ptTotal r.pt + 0) = _
      rw [hrpt]
      congr 1
      ring
    | cons t2 ts2 =>
      have htmx : t ≤ EventReport.partMax p := by
        apply hdrop
        simp [List.dropLast_cons₂]
      have hrec : runPT p t (t2 :: ts2) =
          some (min dAge (EventReport.partMax p) - t) := by
        apply ih t dAge (List.chain_of_chain_cons hchain) (le_of_lt htpos) htmx
          (fun x hx => hpos x (List.mem_cons_of_mem t hx))
          (fun x hx => hdrop x (by rw [List.dropLast_cons₂]; exact List.mem_cons_of_mem t hx))
          (by simpa using hlast)
      show (match EventReport.add p prev t, runPT p t (t2 :: ts2) with
        | some r, some s => some (EventReport.ptTotal r.pt + s)
        | _, _ => none) = _
      rw [hr, hrec]
      show some (EventReport.ptTotal r.pt + (min dAge (EventReport.partMax p) - t)) = _
      rw [hrpt, min_eq_left htmx]
      congr 1
      ring

/-- Claim C1: for an individual whose dispatch times are `times`
(non-decreasing, strictly positive, staying inside the partition until the
final death event at `death_age`), the handler records
`[previousEventTime, now())` on every message starting from time 0, and the
person-time summed over all buckets equals `min(death_age, _max)`
(EventReport::add, microsimulation.h lines 292-305; handlers at
fhcrc-example.cpp line 361 and illness-death.cpp line 45; both clients use
a partition with first cutpoint 0). -/
theorem C1_person_time_sum (p : List ℚ) (times : List ℚ) (death_age : ℚ)
    (hp : List.Pairwise (· < ·) p) (hne : p ≠ []) (hhead : p.getD 0 0 = 0)
    (hchain : List.Chain (· ≤ ·) 0 times)
    (hpos : ∀ t ∈ times, 0 < t)
    (hbelow : ∀ t ∈ times.dropLast, t ≤ EventReport.partMax p)
    (hlast : times.getLast? = some death_age) :
    runPT p 0 times = some (min death_age (EventReport.partMax p)) := by
  have hlen : 0 < p.length := List.length_pos.mpr hne
  have hmx0 : (0 : ℚ) ≤ EventReport.partMax p := by
    have h1 : p.getD 0 0 ≤ EventReport.partMax p := EventReport.le_partMax hp (by omega)
    rw [hhead] at h1
    exact h1
  have h := runPT_spec p hp hne hhead times 0 death_age hchain (le_refl 0)
    hmx0 hpos hbelow hlast
  simpa using h

/-- Witness for C1 at a concrete partition and run. -/
theorem C1_witness :
    runPT [(0 : ℚ), 1, 2, 3] 0 [1/2, 3/2, 5/2] = some (5/2) := by
  have h := C1_person_time_sum [(0 : ℚ), 1, 2, 3] [1/2, 3/2, 5/2] (5/2)
    (by norm_num) (by simp) rfl (by norm_num) (by norm_num)
    (by norm_num [EventReport.partMax, max_def]) rfl
  rw [h]
  norm_num [EventReport.partMax, max_def, min_def]

/-- Claim C2 (counterexample): the claim quantifies over every interval with
`a0 <= lhs <= rhs` and `rhs >= _max`, but for `lhs` above every cutpoint
(here partition `[0, 1]`, `lhs = rhs = 2`) the call dereferences the end
iterator returned by `lower_bound`, so it does not produce the claimed
crediting behaviour at all. -/
theorem C2_counterexample :
    EventReport.add [(0 : ℚ), 1] 2 2 = none ∧
    ((0 : ℚ) ≤ 2 ∧ (2 : ℚ) ≤ 2 ∧ EventReport.partMax [(0 : ℚ), 1] ≤ 2) := by
  refine ⟨?_, by norm_num, by norm_num, by norm_num [EventReport.partMax, max_def]⟩
  norm_num [EventReport.add, EventReport.lowerBoundIdx, EventReport.partMax,
    List.findIdx, List.findIdx.go, max_def]

/-- Claim C2 (amended: additionally require `lhs <= _max`, i.e. `lhs` not
beyond the last cutpoint): for `a0 <= lhs <= rhs` with `rhs >= _max`,
`EventReport::add` credits person-time only to buckets below `_max` (in
total `_max - lhs`, each touched bucket `[a_i, a_i+1)` receiving
`min(a_i+1, rhs) - max(a_i, lhs)`) and records no event of any kind
(microsimulation.h lines 297 and 303: the truncation
`itmax = rhs<_max ? rhs : _max` and the guard `if (rhs<_max)`). -/
theorem C2_truncation (p : List ℚ) (lhs rhs : ℚ)
    (hp : List.Pairwise (· < ·) p) (hne : p ≠ [])
    (h0 : p.getD 0 0 ≤ lhs) (hlr : lhs ≤ rhs)
    (hmax : EventReport.partMax p ≤ rhs) (hin : lhs ≤ EventReport.partMax p) :
    ∃ r : EventReport.AddResult, EventReport.add p lhs rhs = some r ∧
      r.eventBucket = none ∧
      EventReport.ptTotal r.pt = EventReport.partMax p - lhs ∧
      (∀ e ∈ r.pt, e.1 < EventReport.partMax p) ∧
      (∀ i, i + 1 < p.length → p.getD i 0 < EventReport.partMax p →
        lhs < p.getD (i + 1) 0 →
        (p.getD i 0, min (p.getD (i + 1) 0) rhs - max (p.getD i 0) lhs) ∈ r.pt) := by
  have hev : ¬(lhs = rhs ∧ lhs = p.getD 0 0 ∧ rhs < EventReport.partMax p) := by
    rintro ⟨_, _, h⟩; exact absurd hmax (not_le_of_lt h)
  obtain ⟨lo, itF, hF1, hF2, hloLe, hloGt, hloLtj, hF3, hF4, _, heq⟩ :=
    EventReport.add_full p lhs rhs hp hne h0 hlr hin hev
  obtain ⟨r, hr, hrpt⟩ := EventReport.add_ptTotal p lhs rhs hp hne h0 hlr hin hev
  rw [heq] at hr
  cases hr
  refine ⟨_, heq, ?_, ?_, ?_, ?_⟩
  · show (if rhs < EventReport.partMax p then _ else none) = none
    rw [if_neg (not_lt_of_le hmax)]
  · rw [hrpt, min_eq_right hmax]
  · intro e he
    simp only [List.mem_map, List.mem_range'_1] at he
    obtain ⟨j, ⟨hj1, hj2⟩, hje⟩ := he
    rw [← hje]
    exact lt_of_lt_of_le (hF4 j hj1 (by omega)) (min_le_right _ _)
  · intro i hi1 hi2 hi3
    have hilo : lo ≤ i := by
      by_contra hcon
      have h2 : i + 1 ≤ lo := by omega
      have h3 : p.getD (i + 1) 0 ≤ p.getD lo 0 :=
        EventReport.sorted_getD_le hp h2 (by omega)
      exact absurd hi3 (not_lt_of_le (le_trans h3 hloLe))
    have hiF : i < itF := by
      by_contra hcon
      have h2 : EventReport.partMax p ≤ p.getD itF 0 := by
        have := hF3
        rwa [min_eq_right hmax] at this
      have h3 : p.getD itF 0 ≤ p.getD i 0 :=
        EventReport.sorted_getD_le hp (by omega) (by omega)
      exact absurd hi2 (not_lt_of_le (le_trans h2 h3))
    apply List.mem_map_of_mem
    rw [List.mem_range'_1]
    omega

/-- Witness for the amended C2 at a concrete truncated interval. -/
theorem C2_witness :
    ∃ r : EventReport.AddResult, EventReport.add [(0 : ℚ), 1, 2] (1/2) 5 = some r ∧
      r.eventBucket = none ∧
      EventReport.ptTotal r.pt = EventReport.partMax [(0 : ℚ), 1, 2] - 1/2 ∧
      (∀ e ∈ r.pt, e.1 < EventReport.partMax [(0 : ℚ), 1, 2]) ∧
      (∀ i, i + 1 < ([(0 : ℚ), 1, 2] : List ℚ).length →
        ([(0 : ℚ), 1, 2] : List ℚ).getD i 0 < EventReport.partMax [(0 : ℚ), 1, 2] →
        1/2 < ([(0 : ℚ), 1, 2] : List ℚ).getD (i + 1) 0 →
        (([(0 : ℚ), 1, 2] : List ℚ).getD i 0,
          min (([(0 : ℚ), 1, 2] : List ℚ).getD (i + 1) 0) 5 -
            max (([(0 : ℚ), 1, 2] : List ℚ).getD i 0) (1/2)) ∈ r.pt) :=
  C2_truncation [(0 : ℚ), 1, 2] (1/2) 5 (by norm_num) (by simp) (by norm_num)
    (by norm_num) (by norm_num [EventReport.partMax, max_def])
    (by norm_num [EventReport.partMax, max_def])

/-- Claim C7 (counterexample): with partition `[0, 1, 2]` and interval
`[0, 1)`, `rhs = 1` lies in the bucket starting at cutpoint 1
(`1 ≤ 1 < 2`), but the event is credited to the bucket starting at 0:
when `rhs` is exactly a cutpoint the source credits the preceding bucket,
not the bucket containing `rhs`. -/
theorem C7_counterexample :
    EventReport.add [(0 : ℚ), 1, 2] 0 1 =
      some ⟨[((0 : ℚ), 1)], [0], some 0⟩ ∧
    ((1 : ℚ) ≤ (1 : ℚ) ∧ (1 : ℚ) < 2) := by
  constructor
  · norm_num [EventReport.add, EventReport.addLoop, EventReport.lowerBoundIdx,
      EventReport.partMax, List.findIdx, List.findIdx.go, max_def, min_def]
  · norm_num

/-- Claim C7 (amended): for `a0 <= lhs <= rhs < _max` (excluding the
out-of-bounds corner `lhs = rhs = a0`), `EventReport::add` increments the
event count in the bucket starting at the greatest cutpoint strictly
below `rhs` -- the bucket containing `rhs` when `rhs` is not a cutpoint,
and the preceding bucket when it is; when `lhs = rhs`, every person-time
entry touched is credited 0 and no prevalence entry changes, while the
event is still credited (microsimulation.h lines 298-304). -/
theorem C7_event_bucket (p : List ℚ) (lhs rhs : ℚ)
    (hp : List.Pairwise (· < ·) p) (hne : p ≠ [])
    (h0 : p.getD 0 0 ≤ lhs) (hlr : lhs ≤ rhs)
    (hrm : rhs < EventReport.partMax p)
    (hcorner : ¬(lhs = rhs ∧ lhs = p.getD 0 0)) :
    ∃ r : EventReport.AddResult, EventReport.add p lhs rhs = some r ∧
      (∃ i, 1 ≤ i ∧ i < p.length ∧
        r.eventBucket = some (p.getD (i - 1) 0) ∧
        p.getD (i - 1) 0 < rhs ∧ rhs ≤ p.getD i 0) ∧
      (lhs = rhs → (∀ e ∈ r.pt, e.2 = 0) ∧ r.prev = [] ∧ r.eventBucket.isSome = true) := by
  have hmx : lhs ≤ EventReport.partMax p := le_trans hlr (le_of_lt hrm)
  have hev : ¬(lhs = rhs ∧ lhs = p.getD 0 0 ∧ rhs < EventReport.partMax p) := by
    rintro ⟨h1, h2, _⟩; exact hcorner ⟨h1, h2⟩
  obtain ⟨lo, itF, hF1, hF2, hloLe, hloGt, hloLtj, hF3, hF4, hitF1, heq⟩ :=
    EventReport.add_full p lhs rhs hp hne h0 hlr hmx hev
  have hminr : min rhs (EventReport.partMax p) = rhs := min_eq_left (le_of_lt hrm)
  refine ⟨_, heq, ⟨itF, hitF1 hrm, hF2, ?_, ?_, ?_⟩, ?_⟩
  · show (if rhs < EventReport.partMax p then some (p.getD (itF - 1) 0) else none) = _
    rw [if_pos hrm]
  · rcases Nat.lt_or_ge (itF - 1) lo with hcase | hcase
    · exact lt_of_lt_of_le (hloLtj _ hcase) hlr
    · have h2 := hF4 (itF - 1) hcase (by have := hitF1 hrm; omega)
      rwa [hminr] at h2
  · have h2 := hF3
    rwa [hminr] at h2
  · intro hlrEq
    refine ⟨?_, ?_, ?_⟩
    · intro e he
      simp only [List.mem_map, List.mem_range'_1] at he
      obtain ⟨j, ⟨hj1, hj2⟩, hje⟩ := he
      have hjlt : p.getD j 0 < rhs := by
        have h2 := hF4 j hj1 (by omega)
        rwa [hminr] at h2
      have hjmax : max (p.getD j 0) lhs = lhs :=
        max_eq_right (by rw [hlrEq]; exact le_of_lt hjlt)
      have hjmin : min (p.getD (j + 1) 0) rhs = rhs := by
        apply min_eq_right
        rw [← hlrEq]
        exact le_of_lt (hloGt (j + 1) (by omega) (by omega))
      rw [← hje]
      simp only [hjmax, hjmin]
      rw [hlrEq]
      ring
    · show (((List.range' lo (itF - lo)).filter _).map _) = []
      rw [List.filter_eq_nil_iff.mpr, List.map_nil]
      intro j hj
      rw [List.mem_range'_1] at hj
      have hjlt : p.getD j 0 < rhs := by
        have h2 := hF4 j hj.1 (by omega)
        rwa [hminr] at h2
      simp only [Bool.and_eq_true, decide_eq_true_eq, not_and]
      intro hc
      exact absurd (lt_of_le_of_lt hc hjlt) (by rw [hlrEq]; exact lt_irrefl rhs)
    · show (if rhs < EventReport.partMax p then some (p.getD (itF - 1) 0) else none).isSome = true
      rw [if_pos hrm]
      rfl

/-- Witness for the amended C7: an empty interval `[3/2, 3/2)` inside a
bucket still credits its event, to the bucket starting at 1, with zero
person-time and no prevalence change. -/
theorem C7_witness :
    ∃ r : EventReport.AddResult, EventReport.add [(0 : ℚ), 1, 2] (3/2) (3/2) = some r ∧
      (∃ i, 1 ≤ i ∧ i < ([(0 : ℚ), 1, 2] : List ℚ).length ∧
        r.eventBucket = some (([(0 : ℚ), 1, 2] : List ℚ).getD (i - 1) 0) ∧
        ([(0 : ℚ), 1, 2] : List ℚ).getD (i - 1) 0 < 3/2 ∧
        (3/2 : ℚ) ≤ ([(0 : ℚ), 1, 2] : List ℚ).getD i 0) ∧
      ((3/2 : ℚ) = 3/2 → (∀ e ∈ r.pt, e.2 = 0) ∧ r.prev = [] ∧ r.eventBucket.isSome = true) :=
  C7_event_bucket [(0 : ℚ), 1, 2] (3/2) (3/2) (by norm_num) (by simp)
    (by norm_num) (by norm_num) (by norm_num [EventReport.partMax, max_def])
    (by norm_num)

/-- Claim C10: under the precondition that the partition is non-empty and
strictly increasing, `a0 < lhs <= ak` and `lhs <= rhs`, every vector access
of `EventReport::add` is in bounds and the call returns a result; moreover
both bounds of the precondition are necessary: with `lhs = rhs = a0 < _max`
the event-recording step reads the position before the first cutpoint, and
with `lhs` greater than every cutpoint the `lower_bound` result is
dereferenced past the end (microsimulation.h lines 295-304). -/
theorem C10_bounds_safety :
    (∀ (p : List ℚ) (lhs rhs : ℚ), List.Pairwise (· < ·) p → p ≠ [] →
      p.getD 0 0 < lhs → lhs ≤ EventReport.partMax p → lhs ≤ rhs →
      (EventReport.add p lhs rhs).isSome = true) ∧
    (∀ (a : ℚ) (l : List ℚ), a < EventReport.partMax (a :: l) →
      EventReport.add (a :: l) a a = none) ∧
    (∀ (p : List ℚ) (lhs rhs : ℚ), EventReport.partMax p < lhs →
      EventReport.add p lhs rhs = none) := by
  refine ⟨?_, ?_, ?_⟩
  · intro p lhs rhs hp hne h0 hmx hlr
    obtain ⟨lo, itF, hF1, hF2, hloLe, hloGt, hloLtj, hF3, hF4, hitF1, heq⟩ :=
      EventReport.add_full p lhs rhs hp hne (le_of_lt h0) hlr hmx
        (by rintro ⟨_, h2, _⟩; rw [h2] at h0; exact lt_irrefl _ h0)
    rw [heq]
    rfl
  · intro a l hmax
    have hj : EventReport.lowerBoundIdx (a :: l) a = 0 := by
      simp [EventReport.lowerBoundIdx, List.findIdx_cons]
    simp [EventReport.add, EventReport.addLoop, hj, hmax, lt_irrefl]
  · intro p lhs rhs hmax
    have hflen : EventReport.lowerBoundIdx p lhs = p.length := by
      apply List.findIdx_eq_length_of_false
      intro x hx
      simp only [decide_eq_false_iff_not, not_le]
      exact lt_of_le_of_lt (EventReport.mem_le_partMax hx) hmax
    unfold EventReport.add
    rw [hflen, dif_neg (lt_irrefl p.length)]

/-- Witness for C10: the safe case and both out-of-bounds corners at
concrete partitions. -/
theorem C10_witness :
    (EventReport.add [(0 : ℚ), 1, 2] 1 5).isSome = true ∧
    EventReport.add [(0 : ℚ), 1] 0 0 = none ∧
    EventReport.add [(0 : ℚ), 1] 7 8 = none :=
  ⟨C10_bounds_safety.1 [(0 : ℚ), 1, 2] 1 5 (by norm_num) (by simp) (by norm_num)
      (by norm_num [EventReport.partMax, max_def]) (by norm_num),
   C10_bounds_safety.2.1 0 [1] (by norm_num [EventReport.partMax, max_def]),
   C10_bounds_safety.2.2 [(0 : ℚ), 1] 7 8 (by norm_num [EventReport.partMax, max_def])⟩

namespace Fhcrc

/-- Event kinds of the cancer model, numbered in the order of
`enum event_t` (fhcrc-example.cpp lines 24-25). -/
def toLocalised : Int := 0

def toMetastatic : Int := 1

def toClinicalDiagnosis : Int := 2

def toCancerDeath : Int := 3

def toOtherDeath : Int := 4

def toScreen : Int := 5

def toBiopsyFollowUpScreen : Int := 6

def toScreenInitiatedBiopsy : Int := 7

def toClinicalDiagnosticBiopsy : Int := 8

def toScreenDiagnosis : Int := 9

def toOrganised : Int := 10

def toTreatment : Int := 11

def toCM : Int := 12

def toRP : Int := 13

def toRT : Int := 14

def toADT : Int := 15

def toUtilityChange : Int := 16

def toUtility : Int := 17

end Fhcrc

/-- A queued self-message: the `kind`, `timestamp` and `sendingTime`
fields of `cMessage` (microsimulation.h lines 68-82), the insertion
sequence number of the queue entry (modelled from the spec: queue entries
are ordered by `(timestamp, insertion order)`), and `uval`, the payload of
`cMessageUtility` / `cMessageUtilityChange` (fhcrc-example.cpp
lines 115-125; 0 for plain messages). -/
structure QMsg where
  kind : Int
  timestamp : ℚ
  sendingTime : ℚ
  seq : Nat
  uval : ℚ := 0
deriving Repr, DecidableEq

/-- The dispatch order on queue entries: smaller timestamp first, ties
broken by insertion sequence (modelled from the spec, section on the
queue entry ordering). -/
def qLE (a b : QMsg) : Prop :=
  a.timestamp < b.timestamp ∨ (a.timestamp = b.timestamp ∧ a.seq ≤ b.seq)

instance qLE.instDecidable : ∀ a b : QMsg, Decidable (qLE a b) := fun a b => by
  unfold qLE; infer_instance

/-- Modelled from the spec: popping the minimum queue entry by
`(timestamp, insertion order)`; the ssim event queue itself is not among
these sources.  `selectMin m l` returns the minimum of `m :: l` and the
remaining entries in their original order. -/
def selectMin : QMsg → List QMsg → QMsg × List QMsg
  | m, [] => (m, [])
  | m, x :: xs =>
    if x.timestamp < m.timestamp ∨ (x.timestamp = m.timestamp ∧ x.seq < m.seq) then
      ((selectMin x xs).1, m :: (selectMin x xs).2)
    else
      ((selectMin m xs).1, x :: (selectMin m xs).2)

/-- Modelled from the spec: the dispatch order of a whole queue --
repeatedly pop the minimum entry.  The fuel is the queue length. -/
def sortQ : Nat → List QMsg → List QMsg
  | 0, _ => []
  | _ + 1, [] => []
  | fuel + 1, x :: xs => (selectMin x xs).1 :: sortQ fuel (selectMin x xs).2

/-- The order in which the kernel delivers the entries of queue `q`. -/
def dispatchAll (q : List QMsg) : List QMsg := sortQ q.length q

lemma qLE_trans {a b c : QMsg} (h1 : qLE a b) (h2 : qLE b c) : qLE a c := by
  rcases h1 with h1 | ⟨h1e, h1s⟩ <;> rcases h2 with h2 | ⟨h2e, h2s⟩
  · exact Or.inl (lt_trans h1 h2)
  · exact Or.inl (h2e ▸ h1)
  · exact Or.inl (h1e ▸ h2)
  · exact Or.inr ⟨h1e.trans h2e, le_trans h1s h2s⟩

lemma qLT_le {x m : QMsg}
    (h : x.timestamp < m.timestamp ∨ (x.timestamp = m.timestamp ∧ x.seq < m.seq)) :
    qLE x m := by
  rcases h with h | ⟨he, hs⟩
  · exact Or.inl h
  · exact Or.inr ⟨he, le_of_lt hs⟩

lemma not_qLT_le {x m : QMsg}
    (h : ¬(x.timestamp < m.timestamp ∨ (x.timestamp = m.timestamp ∧ x.seq < m.seq))) :
    qLE m x := by
  push_neg at h
  obtain ⟨h1, h2⟩ := h
  rcases lt_or_eq_of_le h1 with h3 | h3
  · exact Or.inl h3
  · exact Or.inr ⟨h3, Nat.le_of_not_lt (by simpa using h2 h3.symm)⟩

lemma selectMin_perm : ∀ (l : List QMsg) (m : QMsg),
    List.Perm ((selectMin m l).1 :: (selectMin m l).2) (m :: l) := by
  intro l
  induction l with
  | nil => intro m; simp [selectMin]
  | cons x xs ih =>
    intro m
    rw [selectMin]
    by_cases hc : x.timestamp < m.timestamp ∨ (x.timestamp = m.timestamp ∧ x.seq < m.seq)
    · rw [if_pos hc]
      exact (List.Perm.swap _ _ _).trans ((ih x).cons m)
    · rw [if_neg hc]
      exact ((List.Perm.swap _ _ _).trans ((ih m).cons x)).trans (List.Perm.swap _ _ _)

lemma selectMin_qLE : ∀ (l : List QMsg) (m y : QMsg),
    y ∈ m :: l → qLE (selectMin m l).1 y := by
  intro l
  induction l with
  | nil =>
    intro m y hy
    have h2 : y = m := by simpa using hy
    subst h2
    exact Or.inr ⟨rfl, le_refl _⟩
  | cons x xs ih =>
    intro m y hy
    rw [selectMin]
    by_cases hc : x.timestamp < m.timestamp ∨ (x.timestamp = m.timestamp ∧ x.seq < m.seq)
    · rw [if_pos hc]
      rcases List.mem_cons.mp hy with h | h
      · subst h
        exact qLE_trans (ih x x (List.mem_cons_self x xs)) (qLT_le hc)
      · exact ih x y h
    · rw [if_neg hc]
      rcases List.mem_cons.mp hy with h | h
      · subst h
        exact ih y y (List.mem_cons_self y xs)
      · rcases List.mem_cons.mp h with h2 | h2
        · subst h2
          exact qLE_trans (ih m m (List.mem_cons_self m xs)) (not_qLT_le hc)
        · exact ih m y (List.mem_cons_of_mem m h2)

lemma selectMin_length : ∀ (l : List QMsg) (m : QMsg),
    (selectMin m l).2.length = l.length := by
  intro l
  induction l with
  | nil => intro m; rfl
  | cons x xs ih =>
    intro m
    rw [selectMin]
    by_cases hc : x.timestamp < m.timestamp ∨ (x.timestamp = m.timestamp ∧ x.seq < m.seq)
    · rw [if_pos hc]; simp [ih x]
    · rw [if_neg hc]; simp [ih m]

lemma sortQ_subset : ∀ fuel (q : List QMsg), ∀ y ∈ sortQ fuel q, y ∈ q := by
  intro fuel
  induction fuel with
  | zero => intro q y hy; simp [sortQ] at hy
  | succ fuel ih =>
    intro q y hy
    cases q with
    | nil => simp [sortQ] at hy
    | cons x xs =>
      rw [sortQ] at hy
      rcases List.mem_cons.mp hy with h | h
      · subst h
        exact (selectMin_perm xs x).mem_iff.mp (List.mem_cons_self _ _)
      · exact (selectMin_perm xs x).mem_iff.mp
          (List.mem_cons_of_mem _ (ih _ y h))

lemma sortQ_sorted : ∀ fuel (q : List QMsg), List.Sorted qLE (sortQ fuel q) := by
  intro fuel
  induction fuel with
  | zero => intro q; simp [sortQ]
  | succ fuel ih =>
    intro q
    cases q with
    | nil => simp [sortQ]
    | cons x xs =>
      rw [sortQ, List.sorted_cons]
      constructor
      · intro b hb
        exact selectMin_qLE xs x b
          ((selectMin_perm xs x).mem_iff.mp
            (List.mem_cons_of_mem _ (sortQ_subset fuel _ b hb)))
      · exact ih _

lemma sortQ_perm : ∀ fuel (q : List QMsg), q.length ≤ fuel →
    List.Perm (sortQ fuel q) q := by
  intro fuel
  induction fuel with
  | zero =>
    intro q h
    have h2 : q = [] := List.eq_nil_of_length_eq_zero (by omega)
    subst h2
    simp [sortQ]
  | succ fuel ih =>
    intro q hlen
    cases q with
    | nil => simp [sortQ]
    | cons x xs =>
      rw [sortQ]
      have hrec := ih (selectMin x xs).2
        (by rw [selectMin_length xs x]; simpa using Nat.lt_succ_iff.mp hlen)
      exact (hrec.cons (selectMin x xs).1).trans (selectMin_perm xs x)

/-- The four messages scheduled by the `toClinicalDiagnosis` handler case,
all at `now()`, in source order (fhcrc-example.cpp lines 410-413): three
`toClinicalDiagnosticBiopsy` and then one `toTreatment`; insertion gives
them consecutive sequence numbers. -/
def clinicalDiagnosisQueue (t : ℚ) (seq0 : Nat) : List QMsg :=
  [⟨Fhcrc.toClinicalDiagnosticBiopsy, t, t, seq0, 0⟩,
   ⟨Fhcrc.toClinicalDiagnosticBiopsy, t, t, seq0 + 1, 0⟩,
   ⟨Fhcrc.toClinicalDiagnosticBiopsy, t, t, seq0 + 2, 0⟩,
   ⟨Fhcrc.toTreatment, t, t, seq0 + 3, 0⟩]

/-- Claim C3: the kernel dispatches a permutation of the queue sorted by
`(timestamp, insertion order)`, so messages with equal timestamps are
delivered in insertion (FIFO) order; in particular the three
`toClinicalDiagnosticBiopsy` messages scheduled by the
`toClinicalDiagnosis` case are dispatched before the `toTreatment` message
scheduled after them at the same time (fhcrc-example.cpp lines 410-413;
the queue ordering is modelled from the spec, as the ssim queue is not
among these sources). -/
theorem C3_fifo_dispatch :
    (∀ q : List QMsg, List.Perm (dispatchAll q) q ∧ List.Sorted qLE (dispatchAll q)) ∧
    (dispatchAll (clinicalDiagnosisQueue 5 0)).map QMsg.kind =
      [Fhcrc.toClinicalDiagnosticBiopsy, Fhcrc.toClinicalDiagnosticBiopsy,
       Fhcrc.toClinicalDiagnosticBiopsy, Fhcrc.toTreatment] := by
  constructor
  · intro q
    exact ⟨sortQ_perm q.length q (le_refl _), sortQ_sorted q.length q⟩
  · norm_num [dispatchAll, clinicalDiagnosisQueue, sortQ, selectMin, lt_irrefl]

/-- Kernel scheduling error, modelled from the spec (section 7): scheduling
in the past is a contract violation. -/
inductive KernelError where
  | TimeReversal
deriving Repr, DecidableEq

/-- `cProcess::scheduleAt(t, msg)` (microsimulation.h lines 104-113): the
message is stamped `timestamp = t`; the `cMessage` constructor stamped
`sendingTime = Sim::clock()` when the message was created at scheduling
time (line 75).  The queue insertion with a fresh sequence number and the
TimeReversal failure for `t < now()` are modelled from the spec
(sections 4.1 and 7), as the ssim queue is not among these sources. -/
def scheduleAt (clock : ℚ) (q : List QMsg) (nextSeq : Nat) (t : ℚ) (k : Int) (v : ℚ) :
    Except KernelError (List QMsg × Nat) :=
  if t < clock then .error .TimeReversal
  else .ok (q ++ [{ kind := k, timestamp := t, sendingTime := clock,
                    seq := nextSeq, uval := v }], nextSeq + 1)

/-- Claim C9: scheduling a message at `t < now()` fails with TimeReversal
instead of inserting it; for `t >= now()` the message is appended with
`timestamp = t` and `sendingTime = now()`, so every queued message keeps
`sendingTime <= timestamp`. -/
theorem C9_time_reversal :
    (∀ (clock : ℚ) (q : List QMsg) (s : Nat) (t : ℚ) (k : Int) (v : ℚ),
      t < clock → scheduleAt clock q s t k v = .error .TimeReversal) ∧
    (∀ (clock : ℚ) (q : List QMsg) (s : Nat) (t : ℚ) (k : Int) (v : ℚ),
      clock ≤ t → scheduleAt clock q s t k v =
        .ok (q ++ [⟨k, t, clock, s, v⟩], s + 1)) ∧
    (∀ (clock : ℚ) (q : List QMsg) (s : Nat) (t : ℚ) (k : Int) (v : ℚ)
      (q2 : List QMsg) (s2 : Nat),
      (∀ m ∈ q, m.sendingTime ≤ m.timestamp) →
      scheduleAt clock q s t k v = .ok (q2, s2) →
      ∀ m ∈ q2, m.sendingTime ≤ m.timestamp) := by
  refine ⟨?_, ?_, ?_⟩
  · intro clock q s t k v h
    rw [scheduleAt, if_pos h]
  · intro clock q s t k v h
    rw [scheduleAt, if_neg (not_lt_of_le h)]
  · intro clock q s t k v q2 s2 hq hok m hm
    rw [scheduleAt] at hok
    by_cases h : t < clock
    · rw [if_pos h] at hok
      exact absurd hok (by simp)
    · rw [if_neg h] at hok
      have h2 : q2 = q ++ [⟨k, t, clock, s, v⟩] := by
        have := congrArg (fun r : Except KernelError (List QMsg × Nat) =>
          match r with | .ok p => p.1 | .error _ => []) hok
        simpa using this.symm
      subst h2
      rcases List.mem_append.mp hm with h3 | h3
      · exact hq m h3
      · have h4 : m = ⟨k, t, clock, s, v⟩ := by simpa using h3
        subst h4
        exact le_of_not_lt h

/-- Witness for C9 at concrete values. -/
theorem C9_witness :
    scheduleAt 3 [] 0 2 1 0 = .error .TimeReversal ∧
    scheduleAt 3 [] 0 5 1 0 = .ok ([⟨1, 5, 3, 0, 0⟩], 1) ∧
    (∀ m ∈ [(⟨1, 5, 3, 0, 0⟩ : QMsg)], m.sendingTime ≤ m.timestamp) :=
  ⟨C9_time_reversal.1 3 [] 0 2 1 0 (by norm_num),
   C9_time_reversal.2.1 3 [] 0 5 1 0 (by norm_num),
   C9_time_reversal.2.2 3 [] 0 5 1 0 [⟨1, 5, 3, 0, 0⟩] 1 (by simp)
     (C9_time_reversal.2.1 3 [] 0 5 1 0 (by norm_num))⟩

/-- `cProcess::process_event` (microsimulation.h lines 94-103) runs the
handler and then updates `previousEventTime = Sim::clock()`; the
constructor initialises it to 0 (line 92); the kernel has advanced the
clock to the timestamp of the dispatched message (modelled from the spec).
`petTrace ts pet` lists, for dispatch times `ts`, the pair
`(previousEventTime, now())` visible inside each handler call. -/
def petTrace : List ℚ → ℚ → List (ℚ × ℚ)
  | [], _ => []
  | t :: ts, pet => (pet, t) :: petTrace ts t

/-- Claim C8 (counterexample): with two messages dispatched at the same
time 5, the second (non-first) handler call sees
`previousEventTime = now() = 5`, so equality does not hold only at the
first message. -/
theorem C8_counterexample :
    petTrace [5, 5] 0 = [(0, 5), (5, 5)] ∧
    (petTrace [5, 5] 0).getD 1 (0, 0) = (5, 5) ∧
    List.Chain (· ≤ ·) (0 : ℚ) [5, 5] ∧ ¬((5 : ℚ) < 5) :=
  ⟨rfl, rfl, by norm_num, lt_irrefl 5⟩

/-- Claim C8 (amended): `previousEventTime` is updated to the clock after
every handled message, so inside every handler
`previousEventTime ≤ now()`; the value seen at message `i+1` is exactly
the timestamp of message `i` (with 0 before the first message), so
equality holds at the first message iff its timestamp is 0 and at a later
message iff its timestamp equals the previous one -- not only at the
first message. -/
theorem C8_previous_event_time (times : List ℚ) (pet0 : ℚ)
    (hchain : List.Chain (· ≤ ·) pet0 times) :
    (∀ pr ∈ petTrace times pet0, pr.1 ≤ pr.2) ∧
    petTrace times pet0 = List.zip (pet0 :: times) times := by
  induction times generalizing pet0 with
  | nil => exact ⟨by simp [petTrace], by simp [petTrace]⟩
  | cons t ts ih =>
    obtain ⟨ih1, ih2⟩ := ih t (List.chain_of_chain_cons hchain)
    refine ⟨?_, ?_⟩
    · intro pr hpr
      rw [petTrace] at hpr
      rcases List.mem_cons.mp hpr with h | h
      · subst h
        exact List.rel_of_chain_cons hchain
      · exact ih1 pr h
    · rw [petTrace, ih2]
      rfl

/-- Witness for the amended C8 at concrete dispatch times. -/
theorem C8_witness :
    (∀ pr ∈ petTrace [1, 2] 0, pr.1 ≤ pr.2) ∧
    petTrace [(1 : ℚ), 2] 0 = List.zip [0, 1, 2] [1, 2] :=
  C8_previous_event_time [1, 2] 0 (by norm_num)

/-- `bounds<double>(x, a, b)` (fhcrc-example.cpp lines 127-130):
`(x<a)?a:((x>b)?b:x)`. -/
def bounds (x a b : ℚ) : ℚ := if x < a then a else if b < x then b else x

/-- `H_local_age_set.lower_bound(x)` where `H_local_age_set` is a
`std::set<double, greater<double> >` (fhcrc-example.cpp line 102): the set
iterates in strictly decreasing order, and `lower_bound` returns the first
element that is not ordered before `x` under the `greater` comparator,
i.e. the first element `<= x` along the descending order. -/
def setGreaterLowerBound (keys : List ℚ) (x : ℚ) : Option ℚ :=
  keys.find? (fun a => decide (a ≤ x))

/-- The age key used by the localised branch of
`FhcrcPerson::calculate_survival` (fhcrc-example.cpp line 204):
`*H_local_age_set.lower_bound(bounds<double>(age_diag,50.0,80.0))`. -/
def localisedRowAge (keys : List ℚ) (age_diag : ℚ) : Option ℚ :=
  setGreaterLowerBound keys (bounds age_diag 50 80)

/-- The row selection in the words of the spec sentence under check: the
smallest age key that is at least the clamped diagnosis age. -/
def smallestKeyGE : List ℚ → ℚ → Option ℚ
  | [], _ => none
  | a :: l, x =>
    if x ≤ a then
      some (match smallestKeyGE l x with
        | none => a
        | some b => min a b)
    else smallestKeyGE l x

/-- The row selection the source actually performs: the greatest age key
that is at most the clamped diagnosis age. -/
def greatestKeyLE : List ℚ → ℚ → Option ℚ
  | [], _ => none
  | a :: l, x =>
    if a ≤ x then
      some (match greatestKeyLE l x with
        | none => a
        | some b => max a b)
    else greatestKeyLE l x

lemma greatestKeyLE_mem : ∀ (keys : List ℚ) (x b : ℚ),
    greatestKeyLE keys x = some b → b ∈ keys := by
  intro keys
  induction keys with
  | nil => intro x b h; simp [greatestKeyLE] at h
  | cons a l ih =>
    intro x b h
    rw [greatestKeyLE] at h
    by_cases hc : a ≤ x
    · rw [if_pos hc] at h
      rcases hmatch : greatestKeyLE l x with _ | b2
      · rw [hmatch] at h
        simp at h
        subst h
        exact List.mem_cons_self a l
      · rw [hmatch] at h
        simp at h
        rcases max_choice a b2 with h2 | h2 <;> rw [h2] at h
        · rw [← h]; exact List.mem_cons_self a l
        · rw [← h]; exact List.mem_cons_of_mem a (ih x b2 hmatch)
    · rw [if_neg hc] at h
      exact List.mem_cons_of_mem a (ih x b h)

/-- Claim C5 (counterexample): with the descending age-key set
`{80, 70, 60, 50}` and `age_diag = 55`, the source selects key 50 (the
greatest key at most 55), while the spec sentence asks for the smallest
key at least 55, which is 60. -/
theorem C5_counterexample :
    localisedRowAge [80, 70, 60, 50] 55 = some 50 ∧
    smallestKeyGE [80, 70, 60, 50] (bounds 55 50 80) = some 60 ∧
    List.Pairwise (· > ·) [(80 : ℚ), 70, 60, 50] ∧ (50 : ℚ) ≠ 60 := by
  refine ⟨?_, ?_, by norm_num, by norm_num⟩
  · norm_num [localisedRowAge, setGreaterLowerBound, bounds, List.find?]
  · norm_num [smallestKeyGE, bounds, min_def]

/-- Claim C5 (amended): in the localised branch of `calculate_survival`,
the age key of the `H_local` row used is the GREATEST age key at most
`clamp(age_diag, 50, 80)` -- not the smallest key at least it --
whenever the key set is strictly decreasing, which is how
`std::set<double, greater<double> >` iterates. -/
theorem C5_row_selection (keys : List ℚ) (age_diag : ℚ)
    (hk : List.Pairwise (· > ·) keys) :
    localisedRowAge keys age_diag = greatestKeyLE keys (bounds age_diag 50 80) := by
  unfold localisedRowAge setGreaterLowerBound
  generalize bounds age_diag 50 80 = x
  induction keys with
  | nil => rfl
  | cons a l ih =>
    by_cases hc : a ≤ x
    · rw [List.find?_cons_of_pos (p := fun a => decide (a ≤ x)) l
            (decide_eq_true hc), greatestKeyLE, if_pos hc]
      rcases hmatch : greatestKeyLE l x with _ | b
      · rfl
      · have hmem : b ∈ l := greatestKeyLE_mem l x b hmatch
        have hab : b < a := (List.pairwise_cons.mp hk).1 b hmem
        show some a = some (max a b)
        rw [max_eq_left (le_of_lt hab)]
    · rw [List.find?_cons_of_neg (p := fun a => decide (a ≤ x)) l
            (by simpa using hc), greatestKeyLE, if_neg hc]
      exact ih (List.pairwise_cons.mp hk).2

/-- Witness for the amended C5 at the concrete key set. -/
theorem C5_witness :
    localisedRowAge [80, 70, 60, 50] 55 =
      greatestKeyLE [80, 70, 60, 50] (bounds 55 50 80) :=
  C5_row_selection [80, 70, 60, 50] 55 (by norm_num)

/-- `base::grade_t` (fhcrc-example.cpp line 14). -/
inductive BaseGrade where
  | Gleason_le_7
  | Gleason_ge_8
deriving Repr, DecidableEq

/-- `treatment_t` (fhcrc-example.cpp line 30). -/
inductive Treatment where
  | no_treatment
  | CM
  | RP
  | RT
deriving Repr, DecidableEq

/-- `bounds<double>` over the reals (fhcrc-example.cpp lines 127-130). -/
noncomputable def boundsR (x a b : ℝ) : ℝ := if x < a then a else if b < x then b else x

/-- The survival-table inputs read by `calculate_survival`: the `H_local`
age-key set in the decreasing iteration order of
`std::set<double, greater<double> >`, and the prepared `invert`
interpolations of `H_local` and `H_dist` (fhcrc-example.cpp lines 93-102
and 733-765), abstracted as functions of the cumulative hazard. -/
structure SurvTables where
  hLocalAgeSet : List ℝ
  hLocalInvert : ℝ → BaseGrade → ℝ → ℝ
  hDistInvert : BaseGrade → ℝ → ℝ

/-- The scalar parameters read by `calculate_survival`. -/
structure SurvParams where
  c_txlt_interaction : ℝ
  c_baseline_specific : ℝ
  sxbenefit : ℝ

/-- The set `lower_bound` over the reals (first element `<= x` in the
descending iteration order), as used on `H_local_age_set`. -/
noncomputable def setGreaterLowerBoundR (keys : List ℝ) (x : ℝ) : Option ℝ :=
  keys.find? (fun a => decide (a ≤ x))

/-- `FhcrcPerson::calculate_survival(u, age_diag, age_c, tx)`
(fhcrc-example.cpp lines 195-210), over the reals; `tm` and `grade` are
the per-individual fields the member function reads. -/
noncomputable def calculate_survival (tbl : SurvTables) (par : SurvParams)
    (tm : ℝ) (grade : BaseGrade) (u age_diag age_c : ℝ) (tx : Treatment) : ℝ :=
  let age_m := tm + 35
  let localised := age_diag < age_m
  let txhaz : ℝ := if localised ∧ (tx = Treatment.RP ∨ tx = Treatment.RT) then 0.62 else 1
  let lead_time := age_c - age_diag
  let txbenefit := Real.exp (Real.log txhaz + Real.log par.c_txlt_interaction * lead_time)
  let ustar := Real.rpow u (1 / (par.c_baseline_specific * txbenefit * par.sxbenefit))
  if localised then
    age_c + tbl.hLocalInvert
      ((setGreaterLowerBoundR tbl.hLocalAgeSet (boundsR age_diag 50 80)).getD 0)
      grade (- Real.log ustar)
  else
    age_c + tbl.hDistInvert grade (- Real.log ustar)

/-- Claim C6 (amended): `calculate_survival` is antitone, not monotone, in
its first argument: for fixed `(age_diag, age_c, tx)` and `u1 < u2` in
`(0, 1)`, with monotone non-decreasing hazard inversions and positive
`c_baseline_specific`, `sxbenefit`, `c_txlt_interaction`, the age at death
for `u2` is at most the one for `u1` (a larger uniform draw gives a
smaller `-log u*`, hence an earlier death). -/
theorem C6_survival_antitone (tbl : SurvTables) (par : SurvParams)
    (tm : ℝ) (grade : BaseGrade) (age_diag age_c : ℝ) (tx : Treatment) (u1 u2 : ℝ)
    (hmloc : ∀ a g, Monotone (tbl.hLocalInvert a g))
    (hmdist : ∀ g, Monotone (tbl.hDistInvert g))
    (hc : 0 < par.c_baseline_specific) (hs : 0 < par.sxbenefit)
    (hx : 0 < par.c_txlt_interaction)
    (h1 : 0 < u1) (h12 : u1 < u2) (h2 : u2 < 1) :
    calculate_survival tbl par tm grade u2 age_diag age_c tx ≤
      calculate_survival tbl par tm grade u1 age_diag age_c tx := by
  unfold calculate_survival
  set txhaz : ℝ :=
    if (age_diag < tm + 35) ∧ (tx = Treatment.RP ∨ tx = Treatment.RT) then (0.62 : ℝ)
    else 1 with htxhaz
  set txbenefit : ℝ :=
    Real.exp (Real.log txhaz + Real.log par.c_txlt_interaction * (age_c - age_diag))
      with htxbenefit
  have hben : 0 < txbenefit := Real.exp_pos _
  have hk : 0 < par.c_baseline_specific * txbenefit * par.sxbenefit := by positivity
  have he : 0 < 1 / (par.c_baseline_specific * txbenefit * par.sxbenefit) := by positivity
  have hu : Real.rpow u1 (1 / (par.c_baseline_specific * txbenefit * par.sxbenefit)) <
      Real.rpow u2 (1 / (par.c_baseline_specific * txbenefit * par.sxbenefit)) :=
    Real.rpow_lt_rpow (le_of_lt h1) h12 he
  have hupos : 0 < Real.rpow u1 (1 / (par.c_baseline_specific * txbenefit * par.sxbenefit)) :=
    Real.rpow_pos_of_pos h1 _
  have hlog : - Real.log
        (Real.rpow u2 (1 / (par.c_baseline_specific * txbenefit * par.sxbenefit))) ≤
      - Real.log
        (Real.rpow u1 (1 / (par.c_baseline_specific * txbenefit * par.sxbenefit))) :=
    neg_le_neg (le_of_lt (Real.log_lt_log hupos hu))
  by_cases hloc : age_diag < tm + 35
  · rw [if_pos hloc, if_pos hloc]
    exact add_le_add_left (hmloc _ _ hlog) age_c
  · rw [if_neg hloc, if_neg hloc]
    exact add_le_add_left (hmdist _ hlog) age_c

/-- Identity hazard-inversion tables (monotone) for the C6 instances. -/
noncomputable def survTblId : SurvTables :=
  ⟨[50], fun _ _ t => t, fun _ t => t⟩

/-- Unit parameters for the C6 instances. -/
noncomputable def survParOne : SurvParams := ⟨1, 1, 1⟩

lemma calculate_survival_id_eval (u : ℝ) :
    calculate_survival survTblId survParOne 30 BaseGrade.Gleason_le_7 u 60 60
      Treatment.CM = 60 + (- Real.log u) := by
  unfold calculate_survival survTblId survParOne
  dsimp only
  have hloc : (60 : ℝ) < 30 + 35 := by norm_num
  have hhaz : ¬((60 : ℝ) < 30 + 35 ∧
      (Treatment.CM = Treatment.RP ∨ Treatment.CM = Treatment.RT)) := by
    rintro ⟨_, h | h⟩ <;> exact Treatment.noConfusion h
  rw [if_neg hhaz, if_pos hloc]
  have hlog1 : Real.log 1 = 0 := Real.log_one
  rw [hlog1]
  norm_num [Real.exp_zero, Real.rpow_one]

/-- Claim C6 (counterexample): at identity inversion tables and unit
parameters (which satisfy every assumption of the claim), the draws
`u1 = exp(-2) < u2 = exp(-1)` in `(0, 1)` give a LARGER age at death for
the smaller draw: `calculate_survival` is not monotone non-decreasing in
`u`. -/
theorem C6_counterexample :
    calculate_survival survTblId survParOne 30 BaseGrade.Gleason_le_7 (Real.exp (-1))
        60 60 Treatment.CM <
      calculate_survival survTblId survParOne 30 BaseGrade.Gleason_le_7 (Real.exp (-2))
        60 60 Treatment.CM ∧
    0 < Real.exp (-2) ∧ Real.exp (-2) < Real.exp (-1) ∧ Real.exp (-1) < 1 ∧
    (∀ a g, Monotone (survTblId.hLocalInvert a g)) ∧
    (∀ g, Monotone (survTblId.hDistInvert g)) ∧
    (0 : ℝ) < survParOne.c_baseline_specific ∧
    (0 : ℝ) < survParOne.sxbenefit ∧
    (0 : ℝ) < survParOne.c_txlt_interaction := by
  refine ⟨?_, Real.exp_pos _, by rw [Real.exp_lt_exp]; norm_num, ?_, ?_, ?_, ?_, ?_, ?_⟩
  · rw [calculate_survival_id_eval, calculate_survival_id_eval,
      Real.log_exp, Real.log_exp]
    norm_num
  · calc Real.exp (-1) < Real.exp 0 := by rw [Real.exp_lt_exp]; norm_num
    _ = 1 := Real.exp_zero
  · intro a g
    show Monotone (fun t : ℝ => t)
    exact monotone_id
  · intro g
    show Monotone (fun t : ℝ => t)
    exact monotone_id
  · show (0 : ℝ) < 1; norm_num
  · show (0 : ℝ) < 1; norm_num
  · show (0 : ℝ) < 1; norm_num

/-- Witness for the amended C6 at the same concrete instance. -/
theorem C6_witness :
    calculate_survival survTblId survParOne 30 BaseGrade.Gleason_le_7 (Real.exp (-1))
        60 60 Treatment.CM ≤
      calculate_survival survTblId survParOne 30 BaseGrade.Gleason_le_7 (Real.exp (-2))
        60 60 Treatment.CM :=
  C6_survival_antitone survTblId survParOne 30 BaseGrade.Gleason_le_7 60 60 Treatment.CM
    (Real.exp (-2)) (Real.exp (-1))
    (fun a g => by show Monotone (fun t : ℝ => t); exact monotone_id)
    (fun g => by show Monotone (fun t : ℝ => t); exact monotone_id)
    (by show (0 : ℝ) < 1; norm_num) (by show (0 : ℝ) < 1; norm_num)
    (by show (0 : ℝ) < 1; norm_num)
    (Real.exp_pos _) (by rw [Real.exp_lt_exp]; norm_num)
    (by calc Real.exp (-1) < Real.exp 0 := by rw [Real.exp_lt_exp]; norm_num
      _ = 1 := Real.exp_zero)

/-- The effect of one handler invocation on the kernel: the kinds removed
from the queue (`RemoveKind` calls), the messages scheduled
`(time, kind, payload)` in statement order, whether
`Sim::stop_simulation()` was called, and the updated process state.  In
both handlers every removal statement precedes every schedule statement,
which the kernel step below relies on. -/
structure Effects (S : Type) where
  removeKinds : List Int := []
  schedules : List (ℚ × Int × ℚ) := []
  stop : Bool := false
  state : S

/-- Enqueue a list of schedules at the current clock through `scheduleAt`;
a TimeReversal on any of them aborts (`none`). -/
def enqueueAll (clock : ℚ) : List QMsg × Nat → List (ℚ × Int × ℚ) → Option (List QMsg × Nat)
  | acc, [] => some acc
  | (q, s), (t, k, v) :: rest =>
    match scheduleAt clock q s t k v with
    | Except.error _ => none
    | Except.ok acc2 => enqueueAll clock acc2 rest

/-- Kernel state for one individual run: clock, pending queue, next
insertion sequence number, the process state, the stop flag, and the
number of handled messages (used to index the random draws). -/
structure KState (S : Type) where
  clock : ℚ
  queue : List QMsg
  seq : Nat
  pstate : S
  stopped : Bool
  steps : Nat

/-- How a run ended: normally (stop or empty queue), by a TimeReversal
abort, or because the step budget ran out. -/
inductive RunStatus where
  | halted
  | aborted
  | outOfFuel
deriving Repr, DecidableEq

/-- Modelled from the spec: the kernel dispatch loop (the ssim kernel is
not among these sources).  Repeatedly pop the minimum entry by
`(timestamp, insertion order)`, advance the clock to its timestamp, run
the handler, apply its removals, then its schedules, then its stop
request; exit when stopped or the queue is empty.  Returns the dispatched
messages, the final state, and how the run ended. -/
def kernelRun {S : Type} (h : Nat → S → QMsg → Effects S) :
    Nat → KState S → List QMsg × KState S × RunStatus
  | 0, s => ([], s, RunStatus.outOfFuel)
  | fuel + 1, s =>
    if s.stopped then ([], s, RunStatus.halted)
    else
      match s.queue with
      | [] => ([], s, RunStatus.halted)
      | x :: xs =>
        match enqueueAll (selectMin x xs).1.timestamp
            ((selectMin x xs).2.filter
              (fun y => decide (y.kind ∉
                (h s.steps s.pstate (selectMin x xs).1).removeKinds)), s.seq)
            (h s.steps s.pstate (selectMin x xs).1).schedules with
        | none => ([(selectMin x xs).1], s, RunStatus.aborted)
        | some (q2, s2) =>
          let r := kernelRun h fuel
            ⟨(selectMin x xs).1.timestamp, q2, s2,
              (h s.steps s.pstate (selectMin x xs).1).state,
              (h s.steps s.pstate (selectMin x xs).1).stop, s.steps + 1⟩
          ((selectMin x xs).1 :: r.1, r.2)

lemma enqueueAll_mem (clock : ℚ) :
    ∀ (l : List (ℚ × Int × ℚ)) (q : List QMsg) (s : Nat) (q2 : List QMsg) (s2 : Nat),
    enqueueAll clock (q, s) l = some (q2, s2) → ∀ x ∈ q, x ∈ q2 := by
  intro l
  induction l with
  | nil =>
    intro q s q2 s2 heq x hx
    have h2 : q = q2 := by
      have h3 := heq
      simp [enqueueAll] at h3
      exact h3.1
    rw [← h2]; exact hx
  | cons tkv rest ih =>
    intro q s q2 s2 heq x hx
    obtain ⟨t, k, v⟩ := tkv
    rw [enqueueAll] at heq
    by_cases hc : t < clock
    · rw [scheduleAt, if_pos hc] at heq
      simp at heq
    · rw [scheduleAt, if_neg hc] at heq
      exact ih _ _ _ _ heq x (List.mem_append_left _ hx)

lemma kernelRun_stopped {S : Type} (h : Nat → S → QMsg → Effects S)
    (fuel : Nat) (s : KState S) (hs : s.stopped = true) :
    (kernelRun h fuel s).1 = [] := by
  cases fuel with
  | zero => rfl
  | succ fuel => rw [kernelRun, if_pos hs]

lemma kernelRun_le_one_death {S : Type} (h : Nat → S → QMsg → Effects S)
    (dk : Int → Bool)
    (hstop : ∀ n ps m, (h n ps m).stop = dk m.kind) :
    ∀ fuel (s : KState S),
    (kernelRun h fuel s).1.countP (fun m => dk m.kind) ≤ 1 := by
  intro fuel
  induction fuel with
  | zero => intro s; simp [kernelRun]
  | succ fuel ih =>
    intro s
    rw [kernelRun]
    by_cases hs : s.stopped = true
    · rw [if_pos hs]; simp
    · rw [if_neg hs]
      rcases hql : s.queue with _ | ⟨x, xs⟩
      · simp
      · dsimp only
        rcases henq : enqueueAll (selectMin x xs).1.timestamp
            ((selectMin x xs).2.filter
              (fun y => decide (y.kind ∉
                (h s.steps s.pstate (selectMin x xs).1).removeKinds)), s.seq)
            (h s.steps s.pstate (selectMin x xs).1).schedules with _ | ⟨q2, s2⟩
        · dsimp only
          rw [List.countP_cons]
          simp only [List.countP_nil]
          split <;> omega
        · dsimp only
          rw [List.countP_cons]
          by_cases hd : dk (selectMin x xs).1.kind = true
          · have hstop2 : (h s.steps s.pstate (selectMin x xs).1).stop = true := by
              rw [hstop]; exact hd
            rw [kernelRun_stopped h fuel _ hstop2]
            simp [hd]
          · have h2 := ih ⟨(selectMin x xs).1.timestamp, q2, s2,
              (h s.steps s.pstate (selectMin x xs).1).state,
              (h s.steps s.pstate (selectMin x xs).1).stop, s.steps + 1⟩
            simp only [Bool.not_eq_true] at hd
            simp [hd]
            omega

lemma kernelRun_exactly_one_death {S : Type} (h : Nat → S → QMsg → Effects S)
    (dk : Int → Bool)
    (hstop : ∀ n ps m, (h n ps m).stop = dk m.kind)
    (hrem : ∀ n ps m, ∀ k ∈ (h n ps m).removeKinds, dk k = false) :
    ∀ fuel (s : KState S), s.stopped = false →
    (∃ d ∈ s.queue, dk d.kind = true) →
    (kernelRun h fuel s).2.2 = RunStatus.halted →
    (kernelRun h fuel s).1.countP (fun m => dk m.kind) = 1 := by
  intro fuel
  induction fuel with
  | zero => intro s hs hd hhalt; simp [kernelRun] at hhalt
  | succ fuel ih =>
    intro s hs hd hhalt
    obtain ⟨d, hdq, hdk⟩ := hd
    rw [kernelRun, if_neg (by simp [hs])] at hhalt ⊢
    rcases hql : s.queue with _ | ⟨x, xs⟩
    · rw [hql] at hdq; simp at hdq
    · rw [hql] at hhalt
      dsimp only at hhalt ⊢
      rcases henq : enqueueAll (selectMin x xs).1.timestamp
          ((selectMin x xs).2.filter
            (fun y => decide (y.kind ∉
              (h s.steps s.pstate (selectMin x xs).1).removeKinds)), s.seq)
          (h s.steps s.pstate (selectMin x xs).1).schedules with _ | ⟨q2, s2⟩
      · rw [henq] at hhalt
        simp at hhalt
      · rw [henq] at hhalt
        dsimp only at hhalt ⊢
        rw [List.countP_cons]
        by_cases hdm : dk (selectMin x xs).1.kind = true
        · have hstop2 : (h s.steps s.pstate (selectMin x xs).1).stop = true := by
            rw [hstop]; exact hdm
          rw [kernelRun_stopped h fuel _ hstop2]
          simp [hdm]
        · have hmrest : d ∈ (selectMin x xs).1 :: (selectMin x xs).2 := by
            have hperm := selectMin_perm xs x
            rw [hql] at hdq
            exact hperm.mem_iff.mpr hdq
          have hdne : d ≠ (selectMin x xs).1 := by
            intro hEq
            rw [hEq] at hdk
            exact hdm hdk
          have hdrest : d ∈ (selectMin x xs).2 := by
            rcases List.mem_cons.mp hmrest with h2 | h2
            · exact absurd h2 hdne
            · exact h2
          have hdfilter : d ∈ (selectMin x xs).2.filter
              (fun y => decide (y.kind ∉
                (h s.steps s.pstate (selectMin x xs).1).removeKinds)) := by
            rw [List.mem_filter]
            refine ⟨hdrest, ?_⟩
            simp only [decide_eq_true_eq]
            intro hmem
            have h3 := hrem s.steps s.pstate (selectMin x xs).1 d.kind hmem
            rw [hdk] at h3
            exact Bool.true_eq_false.mp h3
          have hdq2 : d ∈ q2 :=
            enqueueAll_mem (selectMin x xs).1.timestamp _ _ _ _ _ henq d hdfilter
          have hstop3 : (h s.steps s.pstate (selectMin x xs).1).stop = false := by
            rw [hstop]
            simpa using hdm
          have hrec := ih ⟨(selectMin x xs).1.timestamp, q2, s2,
              (h s.steps s.pstate (selectMin x xs).1).state,
              (h s.steps s.pstate (selectMin x xs).1).stop, s.steps + 1⟩
            hstop3 ⟨d, hdq2, hdk⟩ hhalt
          rw [hrec]
          simp only [Bool.not_eq_true] at hdm
          simp [hdm]

namespace Fhcrc

/-- Screening policies, numbered as `enum screen_t` (fhcrc-example.cpp
lines 27-28). -/
def noScreening : Int := 0

def randomScreen50to70 : Int := 1

def twoYearlyScreen50to70 : Int := 2

def fourYearlyScreen50to70 : Int := 3

def screen50 : Int := 4

def screen60 : Int := 5

def screen70 : Int := 6

def screenUptake : Int := 7

def stockholm3_goteborg : Int := 8

def stockholm3_risk_stratified : Int := 9

/-- `state_t` (fhcrc-example.cpp line 20). -/
inductive FState where
  | Healthy
  | Localised
  | Metastatic
deriving Repr, DecidableEq

/-- `diagnosis_t` (fhcrc-example.cpp line 22). -/
inductive Diagnosis where
  | NotDiagnosed
  | ClinicalDiagnosis
  | ScreenDiagnosis
deriving Repr, DecidableEq

/-- The fields of `FhcrcPerson` (fhcrc-example.cpp lines 132-156) that
the handler reads or writes, with the natural-history times drawn at
`init()`.  The PSA coefficients and `ext_grade`, which only feed the
reports and the measured-PSA draw (here an oracle), are omitted. -/
structure FPerson where
  t0 : ℚ
  tm : ℚ
  tc : ℚ
  tmc : ℚ
  cohort : ℚ
  grade : BaseGrade
  state : FState
  dx : Diagnosis
  everPSA : Bool
  previousNegativeBiopsy : Bool
  organised : Bool
  adt : Bool
  tx : Treatment
  utility : ℚ
deriving Repr, DecidableEq

/-- The tables, parameters, utility estimates (`u...`) and durations
(`d...`) read by `FhcrcPerson::init` and `FhcrcPerson::handleMessage`.
Table lookups are functions applied to the already-clamped keys, exactly
as in the source; `expQ` abstracts the real exponential used for the
treatment-benefit weight, and `calcSurv` abstracts
`FhcrcPerson::calculate_survival` (modelled separately over the reals),
with the same argument order `(u, age_diag, age_c, tx)`. -/
structure FEnv where
  screen : Int
  screeningCompliance : ℚ
  studyParticipation : ℚ
  psaThreshold : ℚ
  psaThresholdBiopsyFollowUp : ℚ
  biopsySensitivity : ℚ
  c_low_grade_slope : ℚ
  c_benefit_value : ℚ
  tableBiopsyCompliance : ℚ → ℚ → ℚ
  prtxCM : ℚ → ℚ → BaseGrade → ℚ
  prtxRP : ℚ → ℚ → BaseGrade → ℚ
  pradt : Treatment → ℚ → ℚ → BaseGrade → ℚ
  rescreen_shape : ℚ → ℚ → ℚ
  rescreen_scale : ℚ → ℚ → ℚ
  rescreen_cure : ℚ → ℚ → ℚ
  uFormalPSA : ℚ
  dFormalPSA : ℚ
  uOpportunisticPSA : ℚ
  dOpportunisticPSA : ℚ
  uBiopsy : ℚ
  dBiopsy : ℚ
  uMetastaticCancer : ℚ
  dMetastaticCancer : ℚ
  uPalliative : ℚ
  dPalliative : ℚ
  uProstatectomyPart1 : ℚ
  uProstatectomyPart2 : ℚ
  dProstatectomyPart1 : ℚ
  dProstatectomyPart2 : ℚ
  uRadiationPart1 : ℚ
  uRadiationPart2 : ℚ
  dRadiationPart1 : ℚ
  dRadiationPart2 : ℚ
  uActiveSurveillance : ℚ
  dActiveSurveillance : ℚ
  expQ : ℚ → ℚ
  calcSurv : ℚ → ℚ → ℚ → Treatment → ℚ

/-- The random draws consumed by one `handleMessage` call, as an oracle:
`psa` is the measured PSA `y(now()-35)`, the `u...` fields are the
`R::runif(0,1)` draws in source order, `rweibull` is the re-screening
Weibull draw as a function of the shape and scale it is called with. -/
structure FDraws where
  psa : ℚ
  uScreenBiopsy : ℚ
  uFollowUpBiopsy : ℚ
  uRescreen : ℚ
  rweibull : ℚ → ℚ → ℚ
  uHealthyFollowUp : ℚ
  uSensitivity : ℚ
  uFalseNegFollowUp : ℚ
  uTx : ℚ
  uAdt : ℚ
  uSurv : ℚ

/-- `FhcrcPerson::calculate_treatment(u, age, year)` (fhcrc-example.cpp
lines 182-193). -/
def calculate_treatment (env : FEnv) (grade : BaseGrade) (u age year : ℚ) : Treatment :=
  let pCM := env.prtxCM (bounds age 50 79) (bounds year 1973 2004) grade
  let pRP := env.prtxRP (bounds age 50 79) (bounds year 1973 2004) grade
  if u < pCM then Treatment.CM
  else if u < pCM + pRP then Treatment.RP
  else Treatment.RT

/-- The paired utility decrement and recovery scheduled around a
procedure: change `-u` at `age` and `+u` at `age + d`. -/
def utilPair (age u d : ℚ) : List (ℚ × Int × ℚ) :=
  [(age, toUtilityChange, -u), (age + d, toUtilityChange, u)]

/-- The `toBiopsyFollowUpScreen` / `toScreen` case of `handleMessage`
(fhcrc-example.cpp lines 422-528), restricted to its kernel effects:
the PSA-test utility pair, the `everPSA` update, and either an immediate
`toScreenInitiatedBiopsy` or the re-screening schedule of the selected
policy. -/
def handleScreen (env : FEnv) (dr : FDraws) (p : FPerson) (kind : Int) (age : ℚ) :
    Effects FPerson :=
  let psa := dr.psa
  let utilMsgs : List (ℚ × Int × ℚ) :=
    if p.organised then utilPair age env.uFormalPSA env.dFormalPSA
    else utilPair age env.uOpportunisticPSA env.dOpportunisticPSA
  let p1 : FPerson := if p.everPSA then p else { p with everPSA := true }
  let compliance := env.tableBiopsyCompliance (bounds psa 4 7) (bounds age 55 75)
  if kind = toScreen ∧ env.psaThreshold ≤ psa ∧ dr.uScreenBiopsy < compliance then
    { schedules := utilMsgs ++ [(age, toScreenInitiatedBiopsy, 0)], state := p1 }
  else if kind = toBiopsyFollowUpScreen ∧ env.psaThresholdBiopsyFollowUp ≤ psa ∧
      dr.uFollowUpBiopsy < compliance then
    { schedules := utilMsgs ++ [(age, toScreenInitiatedBiopsy, 0)], state := p1 }
  else
    if p.organised then
      if env.screen = stockholm3_goteborg then
        { schedules := utilMsgs ++
            [if psa < 1 then (age + 4, toScreen, 0) else (age + 2, toScreen, 0)],
          state := p1 }
      else if env.screen = stockholm3_risk_stratified then
        { schedules := utilMsgs ++ utilPair age env.uFormalPSA env.dFormalPSA ++
            [if psa < 1 then (age + 8, toScreen, 0) else (age + 4, toScreen, 0)],
          state := p1 }
      else
        { schedules := utilMsgs, state := p1 }
    else
      if env.screen = screenUptake ∨ env.screen = stockholm3_goteborg ∨
          env.screen = stockholm3_risk_stratified then
        let prescreened := 1 - env.rescreen_cure (bounds age 30 90) psa
        let shape := env.rescreen_shape (bounds age 30 90) psa
        let scale := env.rescreen_scale (bounds age 30 90) psa
        if dr.uRescreen < prescreened then
          { schedules := utilMsgs ++ [(age + dr.rweibull shape scale, toScreen, 0)],
            state := p1 }
        else
          { schedules := utilMsgs, state := p1 }
      else
        { schedules := utilMsgs, state := p1 }

/-- The `toScreenInitiatedBiopsy` case (fhcrc-example.cpp lines 548-566):
the biopsy utility pair, then a follow-up screen for a (false) negative
biopsy before age 70 with screening compliance, or an immediate
`toScreenDiagnosis` when the cancer is detected. -/
def handleBiopsy (env : FEnv) (dr : FDraws) (p : FPerson) (age : ℚ) : Effects FPerson :=
  let utilMsgs := utilPair age env.uBiopsy env.dBiopsy
  if p.state = FState.Healthy then
    let p1 : FPerson := { p with previousNegativeBiopsy := true }
    if age < 70 ∧ dr.uHealthyFollowUp < env.screeningCompliance then
      { schedules := utilMsgs ++ [(age + 1, toBiopsyFollowUpScreen, 0)], state := p1 }
    else
      { schedules := utilMsgs, state := p1 }
  else
    if p.state = FState.Metastatic ∨
        (p.state = FState.Localised ∧ dr.uSensitivity < env.biopsySensitivity) then
      { schedules := utilMsgs ++ [(age, toScreenDiagnosis, 0)], state := p }
    else
      if age < 70 ∧ dr.uFalseNegFollowUp < env.screeningCompliance then
        { schedules := utilMsgs ++ [(age + 1, toBiopsyFollowUpScreen, 0)], state := p }
      else
        { schedules := utilMsgs, state := p }

/-- The `toTreatment` case (fhcrc-example.cpp lines 568-625): metastatic
utility change or treatment assignment with optional ADT, then the
survival computation scheduling `toCancerDeath` at
`weight*age_cd + (1-weight)*age_sd`, and the metastatic and palliative
phase utility changes preceding that death. -/
def handleTreatment (env : FEnv) (dr : FDraws) (p : FPerson) (age year : ℚ) :
    Effects FPerson :=
  let u_tx := dr.uTx
  let u_adt := dr.uAdt
  let tx2 := calculate_treatment env p.grade u_tx age year
  let pADT := env.pradt tx2 (bounds age 50 79) (bounds year 1973 2004) p.grade
  let branchSched : List (ℚ × Int × ℚ) :=
    if p.state = FState.Metastatic then
      [(age, toUtilityChange, -env.uMetastaticCancer)]
    else
      (if tx2 = Treatment.CM then [(age, toCM, 0)] else []) ++
      (if tx2 = Treatment.RP then [(age, toRP, 0)] else []) ++
      (if tx2 = Treatment.RT then [(age, toRT, 0)] else []) ++
      (if u_adt < pADT then [(age, toADT, 0)] else [])
  let p1 : FPerson :=
    if p.state = FState.Metastatic then p
    else { p with tx := tx2, adt := (if u_adt < pADT then true else p.adt) }
  let u_surv := dr.uSurv
  let age_c := if p.state = FState.Localised then p.tc + 35 else p.tmc + 35
  let lead_time := age_c - age
  let age_cd := env.calcSurv u_surv age_c age_c
    (calculate_treatment env p.grade u_tx age_c (year + lead_time))
  let age_sd := env.calcSurv u_surv age age_c p1.tx
  let weight := env.expQ (-(env.c_benefit_value * lead_time))
  let age_cancer_death := weight * age_cd + (1 - weight) * age_sd
  let metUtilSched : List (ℚ × Int × ℚ) :=
    if p.state = FState.Localised then
      if age + env.dMetastaticCancer + env.dPalliative < age_cancer_death then
        [(age_cancer_death - env.dMetastaticCancer - env.dPalliative,
          toUtilityChange, -env.uMetastaticCancer)]
      else
        [(age, toUtilityChange, -env.uMetastaticCancer)]
    else []
  let palliativeSched : List (ℚ × Int × ℚ) :=
    if age + env.dPalliative < age_cancer_death then
      [(age_cancer_death - env.dPalliative,
        toUtilityChange, -env.uPalliative + env.uMetastaticCancer)]
    else
      [(age, toUtilityChange, -env.uPalliative + env.uMetastaticCancer)]
  { schedules := branchSched ++ [(age_cancer_death, toCancerDeath, 0)] ++
      metUtilSched ++ palliativeSched,
    state := p1 }

/-- `FhcrcPerson::handleMessage` (fhcrc-example.cpp lines 351-691),
restricted to its kernel effects: `Sim::stop_simulation` requests,
`RemoveKind` calls, `scheduleAt` calls with times and payloads, and the
state updates, case by case in source order.  Cost and report records do
not touch the kernel and are omitted; `m.timestamp` is `now()`. -/
def handleMessage (env : FEnv) (dr : FDraws) (p : FPerson) (m : QMsg) : Effects FPerson :=
  let age := m.timestamp
  let year := age + p.cohort
  if m.kind = toCancerDeath then { stop := true, state := p }
  else if m.kind = toOtherDeath then { stop := true, state := p }
  else if m.kind = toLocalised then
    { schedules := [(p.tc + 35, toClinicalDiagnosis, 0), (p.tm + 35, toMetastatic, 0)],
      state := { p with state := FState.Localised } }
  else if m.kind = toMetastatic then
    { removeKinds := [toClinicalDiagnosis, toUtility],
      schedules := [(p.tmc + 35, toClinicalDiagnosis, 0)],
      state := { p with state := FState.Metastatic } }
  else if m.kind = toClinicalDiagnosis then
    { removeKinds := [toMetastatic, toScreen],
      schedules := [(age, toClinicalDiagnosticBiopsy, 0), (age, toClinicalDiagnosticBiopsy, 0),
        (age, toClinicalDiagnosticBiopsy, 0), (age, toTreatment, 0)],
      state := { p with dx := Diagnosis.ClinicalDiagnosis } }
  else if m.kind = toOrganised then
    { removeKinds := [toScreen],
      schedules := [(age, toScreen, 0)],
      state := { p with organised := true } }
  else if m.kind = toBiopsyFollowUpScreen ∨ m.kind = toScreen then
    handleScreen env dr p m.kind age
  else if m.kind = toScreenDiagnosis then
    { removeKinds := [toMetastatic, toClinicalDiagnosis, toScreen],
      schedules := [(age, toTreatment, 0)],
      state := { p with dx := Diagnosis.ScreenDiagnosis } }
  else if m.kind = toClinicalDiagnosticBiopsy then
    { schedules := utilPair age env.uBiopsy env.dBiopsy, state := p }
  else if m.kind = toScreenInitiatedBiopsy then
    handleBiopsy env dr p age
  else if m.kind = toTreatment then
    handleTreatment env dr p age year
  else if m.kind = toRP then
    { schedules := [(age, toUtilityChange, -env.uProstatectomyPart1),
        (age + env.dProstatectomyPart1, toUtilityChange, env.uProstatectomyPart1),
        (age + env.dProstatectomyPart1, toUtilityChange, -env.uProstatectomyPart2),
        (age + env.dProstatectomyPart2, toUtilityChange, env.uProstatectomyPart2)],
      state := p }
  else if m.kind = toRT then
    { schedules := [(age, toUtilityChange, -env.uRadiationPart1),
        (age + env.dRadiationPart1, toUtilityChange, env.uRadiationPart1),
        (age + env.dRadiationPart1, toUtilityChange, -env.uRadiationPart2),
        (age + env.dRadiationPart2, toUtilityChange, env.uRadiationPart2)],
      state := p }
  else if m.kind = toCM then
    { schedules := utilPair age env.uActiveSurveillance env.dActiveSurveillance, state := p }
  else if m.kind = toADT then
    { state := p }
  else if m.kind = toUtility then
    { state := { p with utility := m.uval } }
  else if m.kind = toUtilityChange then
    { state := { p with utility := p.utility + m.uval } }
  else
    { state := p }

/-- The values drawn by `FhcrcPerson::init()` (fhcrc-example.cpp
lines 216-346), as an oracle: the natural-history times `t0, tm, tc, tmc`
and the other-cause death age `aoc` are the drawn values themselves
(their defining transformations of exponential and normal draws involve
sqrt, log and exp); the remaining fields are the raw uniform and
log-logistic draws used by the screening branches. -/
structure FInitDraws where
  t0 : ℚ
  tm : ℚ
  tc : ℚ
  tmc : ℚ
  aoc : ℚ
  cohort : ℚ
  uGrade : ℚ
  uScreenGate : ℚ
  uRandomScreen : ℚ
  uscreening : ℚ
  uMix : ℚ
  llogisA : ℚ
  llogisAtrunc : ℚ
  llogisT : ℚ
  uStudy : ℚ
  uOrganisedTime : ℚ

/-- `FhcrcPerson::init()` (fhcrc-example.cpp lines 216-346): the initial
person state and the initial schedule list in source order: the two
natural-history events (`toLocalised` at `t0+35`, `toOtherDeath` at
`aoc`), the screening schedule of the selected policy behind the
compliance gate, the optional `toOrganised` entry for the Stockholm-3
study, and the four age-indexed baseline-utility messages. -/
def init (env : FEnv) (d : FInitDraws) : FPerson × List (ℚ × Int × ℚ) :=
  let grade := if 1 + env.c_low_grade_slope * d.t0 ≤ d.uGrade then BaseGrade.Gleason_ge_8
    else BaseGrade.Gleason_le_7
  let p : FPerson :=
    { t0 := d.t0, tm := d.tm, tc := d.tc, tmc := d.tmc, cohort := d.cohort,
      grade := grade, state := FState.Healthy, dx := Diagnosis.NotDiagnosed,
      everPSA := false, previousNegativeBiopsy := false, organised := false,
      adt := false, tx := Treatment.no_treatment, utility := 98/100 }
  let natHist : List (ℚ × Int × ℚ) :=
    [(d.t0 + 35, toLocalised, 0), (d.aoc, toOtherDeath, 0)]
  let screenSched : List (ℚ × Int × ℚ) :=
    if d.uScreenGate < env.screeningCompliance then
      if env.screen = noScreening then []
      else if env.screen = randomScreen50to70 then [(d.uRandomScreen, toScreen, 0)]
      else if env.screen = twoYearlyScreen50to70 then
        (List.range 11).map (fun i => (50 + 2 * (i : ℚ), toScreen, 0))
      else if env.screen = fourYearlyScreen50to70 then
        (List.range 6).map (fun i => (50 + 4 * (i : ℚ), toScreen, 0))
      else if env.screen = screen50 then [(50, toScreen, 0)]
      else if env.screen = screen60 then [(60, toScreen, 0)]
      else if env.screen = screen70 then [(70, toScreen, 0)]
      else if env.screen = stockholm3_goteborg ∨ env.screen = stockholm3_risk_stratified ∨
          env.screen = screenUptake then
        let pscreening : ℚ :=
          if 1932 ≤ d.cohort then 9/10 else 9/10 - (1932 - d.cohort) * 3/100
        let first_screen : ℚ :=
          if 1960 < d.cohort then 35 + d.llogisA
          else if d.cohort < 1945 then (1995 - d.cohort) + d.llogisT
          else
            if (1995 - d.cohort - 35) / 15 < d.uMix then (1995 - d.cohort) + d.llogisAtrunc
            else (1995 - d.cohort) + d.llogisT
        if d.uscreening < pscreening then [(first_screen, toScreen, 0)] else []
      else []
    else []
  let organisedSched : List (ℚ × Int × ℚ) :=
    if d.uStudy < env.studyParticipation ∧
        (env.screen = stockholm3_goteborg ∨ env.screen = stockholm3_risk_stratified) ∧
        (50 ≤ 2013 - d.cohort ∧ 2013 - d.cohort < 70) then
      [(d.uOrganisedTime - d.cohort, toOrganised, 0)]
    else []
  let utilSched : List (ℚ × Int × ℚ) :=
    [(20, toUtility, 97/100), (40, toUtility, 96/100), (60, toUtility, 95/100),
      (80, toUtility, 91/100)]
  (p, natHist ++ screenSched ++ organisedSched ++ utilSched)

/-- The two kinds on which the cancer model stops the simulation. -/
def isDeath (k : Int) : Bool := decide (k = toCancerDeath) || decide (k = toOtherDeath)

end Fhcrc

namespace IllnessDeath

/-- `enum event_t` (illness-death.cpp line 9). -/
def toOtherDeath : Int := 0

def toCancer : Int := 1

def toCancerDeath : Int := 2

/-- `enum state_t` (illness-death.cpp line 7). -/
inductive IState where
  | Healthy
  | Cancer
deriving Repr, DecidableEq

/-- The fields of `SimplePerson` (illness-death.cpp lines 18-27) written
by `init` and `handleMessage`. -/
structure IPerson where
  state : IState
  z : ℚ
deriving Repr, DecidableEq

/-- The random draws consumed by one `handleMessage` call: the
cure-fraction uniform draw and the `R::rweibull(1.0,10.0)` cancer
survival draw. -/
structure IDraws where
  uCure : ℚ
  tCancerDeath : ℚ

/-- `SimplePerson::handleMessage` (illness-death.cpp lines 43-67),
restricted to its kernel effects: `toOtherDeath` and `toCancerDeath`
stop the simulation; `toCancer` moves to the `Cancer` state, removes the
pending `toOtherDeath` event, and schedules `toCancerDeath` at
`now() + rweibull(1,10)` only when the cure draw falls below 0.5. -/
def handleMessage (dr : IDraws) (p : IPerson) (m : QMsg) : Effects IPerson :=
  if m.kind = toOtherDeath ∨ m.kind = toCancerDeath then { stop := true, state := p }
  else if m.kind = toCancer then
    { removeKinds := [toOtherDeath],
      schedules :=
        if dr.uCure < 1/2 then [(m.timestamp + dr.tCancerDeath, toCancerDeath, 0)] else [],
      state := { p with state := IState.Cancer } }
  else { state := p }

/-- The draws of `SimplePerson::init` (illness-death.cpp lines 32-38):
the Weibull other-cause death age, the 10% cancer-incidence uniform
draw, and the Weibull cancer onset age. -/
structure IInitDraws where
  tOtherDeath : ℚ
  uCancer : ℚ
  tCancer : ℚ

/-- `SimplePerson::init` (illness-death.cpp lines 32-38): state starts
`Healthy` with `z = 1`; `toOtherDeath` is always scheduled, `toCancer`
only on a 10% draw. -/
def init (d : IInitDraws) : IPerson × List (ℚ × Int × ℚ) :=
  (⟨IState.Healthy, 1⟩,
    (d.tOtherDeath, toOtherDeath, 0) ::
      (if d.uCancer < 1/10 then [(d.tCancer, toCancer, 0)] else []))

/-- The two kinds on which the illness-death model stops the
simulation. -/
def isDeath (k : Int) : Bool := decide (k = toOtherDeath) || decide (k = toCancerDeath)

/-- The illness-death handler stops exactly on the two death kinds. -/
lemma ihandler_stop (dr : IDraws) (p : IPerson) (m : QMsg) :
    (handleMessage dr p m).stop = isDeath m.kind := by
  unfold handleMessage isDeath
  by_cases h1 : m.kind = toOtherDeath ∨ m.kind = toCancerDeath
  · rw [if_pos h1]
    rcases h1 with h | h <;> simp [h, toOtherDeath, toCancerDeath]
  · rw [if_neg h1]
    push_neg at h1
    by_cases h2 : m.kind = toCancer
    · rw [if_pos h2]
      simp [h1.1, h1.2]
    · rw [if_neg h2]
      simp [h1.1, h1.2]

/-- The illness-death handler never removes a death-kind event other
than `toOtherDeath`; in particular `toCancerDeath` is never removed.
(For the at-most-one bound only the stop condition matters; this lemma
records which removal the cure path performs.) -/
lemma ihandler_removals (dr : IDraws) (p : IPerson) (m : QMsg) :
    ∀ k ∈ (handleMessage dr p m).removeKinds, k = toOtherDeath := by
  unfold handleMessage
  split_ifs <;> intro k hk <;> simp_all

end IllnessDeath

namespace Fhcrc

/-- Screen handling never stops the simulation. -/
lemma handleScreen_stop (env : FEnv) (dr : FDraws) (p : FPerson) (k : Int) (age : ℚ) :
    (handleScreen env dr p k age).stop = false := by
  unfold handleScreen
  dsimp only
  split_ifs <;> rfl

/-- Screen handling removes no pending events. -/
lemma handleScreen_removals (env : FEnv) (dr : FDraws) (p : FPerson) (k : Int) (age : ℚ) :
    (handleScreen env dr p k age).removeKinds = [] := by
  unfold handleScreen
  dsimp only
  split_ifs <;> rfl

/-- Biopsy handling never stops the simulation. -/
lemma handleBiopsy_stop (env : FEnv) (dr : FDraws) (p : FPerson) (age : ℚ) :
    (handleBiopsy env dr p age).stop = false := by
  unfold handleBiopsy
  dsimp only
  split_ifs <;> rfl

/-- Biopsy handling removes no pending events. -/
lemma handleBiopsy_removals (env : FEnv) (dr : FDraws) (p : FPerson) (age : ℚ) :
    (handleBiopsy env dr p age).removeKinds = [] := by
  unfold handleBiopsy
  dsimp only
  split_ifs <;> rfl

/-- Treatment handling never stops the simulation. -/
lemma handleTreatment_stop (env : FEnv) (dr : FDraws) (p : FPerson) (age year : ℚ) :
    (handleTreatment env dr p age year).stop = false := rfl

/-- Treatment handling removes no pending events. -/
lemma handleTreatment_removals (env : FEnv) (dr : FDraws) (p : FPerson) (age year : ℚ) :
    (handleTreatment env dr p age year).removeKinds = [] := rfl

set_option maxHeartbeats 1000000 in
/-- The cancer-model handler stops exactly on `toCancerDeath` and
`toOtherDeath` (fhcrc-example.cpp lines 373-391). -/
lemma handleMessage_stop (env : FEnv) (dr : FDraws) (p : FPerson) (m : QMsg) :
    (handleMessage env dr p m).stop = isDeath m.kind := by
  unfold handleMessage isDeath
  dsimp only
  by_cases h1 : m.kind = toCancerDeath
  · rw [if_pos h1]
    simp [h1]
  rw [if_neg h1]
  by_cases h2 : m.kind = toOtherDeath
  · rw [if_pos h2]
    simp [h1, h2]
  rw [if_neg h2]
  have hd : (decide (m.kind = toCancerDeath) || decide (m.kind = toOtherDeath)) = false := by
    simp [h1, h2]
  rw [hd]
  by_cases h3 : m.kind = toLocalised
  · rw [if_pos h3]
  rw [if_neg h3]
  by_cases h4 : m.kind = toMetastatic
  · rw [if_pos h4]
  rw [if_neg h4]
  by_cases h5 : m.kind = toClinicalDiagnosis
  · rw [if_pos h5]
  rw [if_neg h5]
  by_cases h6 : m.kind = toOrganised
  · rw [if_pos h6]
  rw [if_neg h6]
  by_cases h7 : m.kind = toBiopsyFollowUpScreen ∨ m.kind = toScreen
  · rw [if_pos h7]
    exact handleScreen_stop env dr p m.kind m.timestamp
  rw [if_neg h7]
  by_cases h8 : m.kind = toScreenDiagnosis
  · rw [if_pos h8]
  rw [if_neg h8]
  by_cases h9 : m.kind = toClinicalDiagnosticBiopsy
  · rw [if_pos h9]
  rw [if_neg h9]
  by_cases h10 : m.kind = toScreenInitiatedBiopsy
  · rw [if_pos h10]
    exact handleBiopsy_stop env dr p m.timestamp
  rw [if_neg h10]
  by_cases h11 : m.kind = toTreatment
  · rw [if_pos h11]
    exact handleTreatment_stop env dr p m.timestamp (m.timestamp + p.cohort)
  rw [if_neg h11]
  by_cases h12 : m.kind = toRP
  · rw [if_pos h12]
  rw [if_neg h12]
  by_cases h13 : m.kind = toRT
  · rw [if_pos h13]
  rw [if_neg h13]
  by_cases h14 : m.kind = toCM
  · rw [if_pos h14]
  rw [if_neg h14]
  by_cases h15 : m.kind = toADT
  · rw [if_pos h15]
  rw [if_neg h15]
  by_cases h16 : m.kind = toUtility
  · rw [if_pos h16]
  rw [if_neg h16]
  by_cases h17 : m.kind = toUtilityChange
  · rw [if_pos h17]
  rw [if_neg h17]

set_option maxHeartbeats 1000000 in
/-- No case of the cancer-model handler removes a death-kind event: the
`RemoveKind` calls target only `toClinicalDiagnosis`, `toUtility`,
`toMetastatic` and `toScreen`. -/
lemma handleMessage_removals (env : FEnv) (dr : FDraws) (p : FPerson) (m : QMsg) :
    ∀ k ∈ (handleMessage env dr p m).removeKinds, isDeath k = false := by
  unfold handleMessage
  dsimp only
  by_cases h1 : m.kind = toCancerDeath
  · rw [if_pos h1]
    show ∀ k ∈ ([] : List Int), isDeath k = false
    decide
  rw [if_neg h1]
  by_cases h2 : m.kind = toOtherDeath
  · rw [if_pos h2]
    show ∀ k ∈ ([] : List Int), isDeath k = false
    decide
  rw [if_neg h2]
  by_cases h3 : m.kind = toLocalised
  · rw [if_pos h3]
    show ∀ k ∈ ([] : List Int), isDeath k = false
    decide
  rw [if_neg h3]
  by_cases h4 : m.kind = toMetastatic
  · rw [if_pos h4]
    show ∀ k ∈ [toClinicalDiagnosis, toUtility], isDeath k = false
    decide
  rw [if_neg h4]
  by_cases h5 : m.kind = toClinicalDiagnosis
  · rw [if_pos h5]
    show ∀ k ∈ [toMetastatic, toScreen], isDeath k = false
    decide
  rw [if_neg h5]
  by_cases h6 : m.kind = toOrganised
  · rw [if_pos h6]
    show ∀ k ∈ [toScreen], isDeath k = false
    decide
  rw [if_neg h6]
  by_cases h7 : m.kind = toBiopsyFollowUpScreen ∨ m.kind = toScreen
  · rw [if_pos h7, handleScreen_removals]
    simp
  rw [if_neg h7]
  by_cases h8 : m.kind = toScreenDiagnosis
  · rw [if_pos h8]
    show ∀ k ∈ [toMetastatic, toClinicalDiagnosis, toScreen], isDeath k = false
    decide
  rw [if_neg h8]
  by_cases h9 : m.kind = toClinicalDiagnosticBiopsy
  · rw [if_pos h9]
    show ∀ k ∈ ([] : List Int), isDeath k = false
    decide
  rw [if_neg h9]
  by_cases h10 : m.kind = toScreenInitiatedBiopsy
  · rw [if_pos h10, handleBiopsy_removals]
    simp
  rw [if_neg h10]
  by_cases h11 : m.kind = toTreatment
  · rw [if_pos h11, handleTreatment_removals]
    simp
  rw [if_neg h11]
  by_cases h12 : m.kind = toRP
  · rw [if_pos h12]
    show ∀ k ∈ ([] : List Int), isDeath k = false
    decide
  rw [if_neg h12]
  by_cases h13 : m.kind = toRT
  · rw [if_pos h13]
    show ∀ k ∈ ([] : List Int), isDeath k = false
    decide
  rw [if_neg h13]
  by_cases h14 : m.kind = toCM
  · rw [if_pos h14]
    show ∀ k ∈ ([] : List Int), isDeath k = false
    decide
  rw [if_neg h14]
  by_cases h15 : m.kind = toADT
  · rw [if_pos h15]
    show ∀ k ∈ ([] : List Int), isDeath k = false
    decide
  rw [if_neg h15]
  by_cases h16 : m.kind = toUtility
  · rw [if_pos h16]
    show ∀ k ∈ ([] : List Int), isDeath k = false
    decide
  rw [if_neg h16]
  by_cases h17 : m.kind = toUtilityChange
  · rw [if_pos h17]
    show ∀ k ∈ ([] : List Int), isDeath k = false
    decide
  rw [if_neg h17]
  show ∀ k ∈ ([] : List Int), isDeath k = false
  decide

end Fhcrc

/-- Every entry of a successfully enqueued schedule list yields a queued
message with its kind and timestamp. -/
lemma enqueueAll_mem_sched (clock : ℚ) :
    ∀ (l : List (ℚ × Int × ℚ)) (q : List QMsg) (s : Nat) (q2 : List QMsg) (s2 : Nat),
    enqueueAll clock (q, s) l = some (q2, s2) →
    ∀ tkv ∈ l, ∃ m ∈ q2, m.kind = tkv.2.1 ∧ m.timestamp = tkv.1 := by
  intro l
  induction l with
  | nil =>
    intro q s q2 s2 heq tkv htkv
    simp at htkv
  | cons hd rest ih =>
    intro q s q2 s2 heq tkv htkv
    obtain ⟨t, k, v⟩ := hd
    rw [enqueueAll] at heq
    by_cases hc : t < clock
    · rw [scheduleAt, if_pos hc] at heq
      simp at heq
    · rw [scheduleAt, if_neg hc] at heq
      rcases List.mem_cons.mp htkv with h1 | h1
      · subst h1
        refine ⟨⟨k, t, clock, s, v⟩, ?_, rfl, rfl⟩
        exact enqueueAll_mem clock rest _ _ _ _ heq _
          (List.mem_append_right q (List.mem_singleton.mpr rfl))
      · exact ih _ _ _ _ heq tkv h1

namespace Fhcrc

/-- The initial schedule of the cancer model always contains the
other-cause death event at age `aoc` (fhcrc-example.cpp line 265). -/
lemma init_death_mem (env : FEnv) (d : FInitDraws) :
    ((d.aoc, toOtherDeath, 0) : ℚ × Int × ℚ) ∈ (init env d).2 := by
  unfold init
  dsimp only
  refine List.mem_append_left _ (List.mem_append_left _ (List.mem_append_left _ ?_))
  simp

end Fhcrc

/-- Claim C4 (amended).  In the fhcrc cancer model, every completed
(halted) individual run dispatches exactly one death event
(`toCancerDeath` or `toOtherDeath`): `init` always schedules
`toOtherDeath`, the handler stops the simulation exactly on the two
death kinds, and no `RemoveKind` call ever targets a death kind.  In the
illness-death model at most one death event is dispatched per run, and a
cured trajectory (`toCancer` with cure draw at or above 0.5) can
dispatch none, because `toCancer` removes the pending `toOtherDeath` and
then schedules no `toCancerDeath`. -/
theorem C4_single_death :
    (∀ (env : Fhcrc.FEnv) (oracle : Nat → Fhcrc.FDraws) (d : Fhcrc.FInitDraws)
      (fuel : Nat) (q0 : List QMsg) (s1 : Nat),
      enqueueAll 0 ([], 0) (Fhcrc.init env d).2 = some (q0, s1) →
      (kernelRun (fun n ps m => Fhcrc.handleMessage env (oracle n) ps m) fuel
        ⟨0, q0, s1, (Fhcrc.init env d).1, false, 0⟩).2.2 = RunStatus.halted →
      (kernelRun (fun n ps m => Fhcrc.handleMessage env (oracle n) ps m) fuel
        ⟨0, q0, s1, (Fhcrc.init env d).1, false, 0⟩).1.countP
          (fun m => Fhcrc.isDeath m.kind) = 1) ∧
    (∀ (oracle : Nat → IllnessDeath.IDraws) (fuel : Nat)
      (s : KState IllnessDeath.IPerson),
      (kernelRun (fun n ps m => IllnessDeath.handleMessage (oracle n) ps m) fuel
        s).1.countP (fun m => IllnessDeath.isDeath m.kind) ≤ 1) := by
  constructor
  · intro env oracle d fuel q0 s1 henq hhalt
    refine kernelRun_exactly_one_death _ Fhcrc.isDeath
      (fun n ps m => Fhcrc.handleMessage_stop env (oracle n) ps m)
      (fun n ps m => Fhcrc.handleMessage_removals env (oracle n) ps m)
      fuel _ rfl ?_ hhalt
    obtain ⟨m, hm, hk, ht⟩ := enqueueAll_mem_sched 0 _ _ _ _ _ henq
      (d.aoc, Fhcrc.toOtherDeath, 0) (Fhcrc.init_death_mem env d)
    refine ⟨m, hm, ?_⟩
    rw [hk]
    rfl
  · intro oracle fuel s
    exact kernelRun_le_one_death _ IllnessDeath.isDeath
      (fun n ps m => IllnessDeath.ihandler_stop (oracle n) ps m) fuel s

/-- Counterexample to C4 as stated: an illness-death run that completes
normally (halted) yet dispatches no death event at all.  The initial
queue holds `toOtherDeath` at age 80 and `toCancer` at age 40; at the
`toCancer` dispatch the pending `toOtherDeath` is removed and the cure
draw 0.7 >= 0.5 schedules no `toCancerDeath`, so the queue empties with
zero deaths dispatched. -/
theorem C4_counterexample :
    enqueueAll 0 ([], 0) (IllnessDeath.init ⟨80, 0, 40⟩).2 =
      some ([⟨IllnessDeath.toOtherDeath, 80, 0, 0, 0⟩,
        ⟨IllnessDeath.toCancer, 40, 0, 1, 0⟩], 2) ∧
    (kernelRun (fun _ ps m => IllnessDeath.handleMessage ⟨7/10, 10⟩ ps m) 2
      ⟨0, [⟨IllnessDeath.toOtherDeath, 80, 0, 0, 0⟩,
        ⟨IllnessDeath.toCancer, 40, 0, 1, 0⟩], 2,
        (IllnessDeath.init ⟨80, 0, 40⟩).1, false, 0⟩).2.2 = RunStatus.halted ∧
    (kernelRun (fun _ ps m => IllnessDeath.handleMessage ⟨7/10, 10⟩ ps m) 2
      ⟨0, [⟨IllnessDeath.toOtherDeath, 80, 0, 0, 0⟩,
        ⟨IllnessDeath.toCancer, 40, 0, 1, 0⟩], 2,
        (IllnessDeath.init ⟨80, 0, 40⟩).1, false, 0⟩).1.countP
        (fun m => IllnessDeath.isDeath m.kind) = 0 := by
  refine ⟨?_, ?_, ?_⟩ <;>
    norm_num [IllnessDeath.init, IllnessDeath.handleMessage, IllnessDeath.isDeath,
      IllnessDeath.toOtherDeath, IllnessDeath.toCancer, IllnessDeath.toCancerDeath,
      enqueueAll, scheduleAt, kernelRun, selectMin]

/-- A concrete cancer-model parameter set for evaluating one run:
`noScreening` policy, zero compliance and participation, all utility
estimates, durations and table values zero. -/
def C4env : Fhcrc.FEnv :=
  { screen := Fhcrc.noScreening, screeningCompliance := 0, studyParticipation := 0,
    psaThreshold := 3, psaThresholdBiopsyFollowUp := 4, biopsySensitivity := 0,
    c_low_grade_slope := 0, c_benefit_value := 0,
    tableBiopsyCompliance := fun _ _ => 0,
    prtxCM := fun _ _ _ => 0, prtxRP := fun _ _ _ => 0, pradt := fun _ _ _ _ => 0,
    rescreen_shape := fun _ _ => 0, rescreen_scale := fun _ _ => 0,
    rescreen_cure := fun _ _ => 0,
    uFormalPSA := 0, dFormalPSA := 0, uOpportunisticPSA := 0, dOpportunisticPSA := 0,
    uBiopsy := 0, dBiopsy := 0, uMetastaticCancer := 0, dMetastaticCancer := 0,
    uPalliative := 0, dPalliative := 0,
    uProstatectomyPart1 := 0, uProstatectomyPart2 := 0,
    dProstatectomyPart1 := 0, dProstatectomyPart2 := 0,
    uRadiationPart1 := 0, uRadiationPart2 := 0, dRadiationPart1 := 0, dRadiationPart2 := 0,
    uActiveSurveillance := 0, dActiveSurveillance := 0,
    expQ := fun _ => 0, calcSurv := fun _ _ _ _ => 0 }

/-- Concrete per-message draws (all zero) for evaluating one run. -/
def C4draws : Nat → Fhcrc.FDraws := fun _ =>
  { psa := 0, uScreenBiopsy := 0, uFollowUpBiopsy := 0, uRescreen := 0,
    rweibull := fun _ _ => 0, uHealthyFollowUp := 0, uSensitivity := 0,
    uFalseNegFollowUp := 0, uTx := 0, uAdt := 0, uSurv := 0 }

/-- Concrete `init` draws: cancer onset far in the future (`t0 = 1000`),
other-cause death at age 10. -/
def C4init : Fhcrc.FInitDraws :=
  { t0 := 1000, tm := 0, tc := 0, tmc := 0, aoc := 10, cohort := 1900, uGrade := 0,
    uScreenGate := 0, uRandomScreen := 0, uscreening := 0, uMix := 0, llogisA := 0,
    llogisAtrunc := 0, llogisT := 0, uStudy := 0, uOrganisedTime := 0 }

/-- The queue produced by enqueueing the schedule of
`Fhcrc.init C4env C4init` at clock 0. -/
def C4queue : List QMsg :=
  [⟨Fhcrc.toLocalised, 1035, 0, 0, 0⟩,
   ⟨Fhcrc.toOtherDeath, 10, 0, 1, 0⟩,
   ⟨Fhcrc.toUtility, 20, 0, 2, 97/100⟩,
   ⟨Fhcrc.toUtility, 40, 0, 3, 96/100⟩,
   ⟨Fhcrc.toUtility, 60, 0, 4, 95/100⟩,
   ⟨Fhcrc.toUtility, 80, 0, 5, 91/100⟩]

/-- Witness for C4 at a concrete cancer-model run: the other-cause death
at age 10 precedes every other queued event, the run halts after
dispatching it, and exactly one death is dispatched. -/
theorem C4_witness :
    enqueueAll 0 ([], 0) (Fhcrc.init C4env C4init).2 = some (C4queue, 6) ∧
    (kernelRun (fun n ps m => Fhcrc.handleMessage C4env (C4draws n) ps m) 2
      ⟨0, C4queue, 6, (Fhcrc.init C4env C4init).1, false, 0⟩).2.2 = RunStatus.halted ∧
    (kernelRun (fun n ps m => Fhcrc.handleMessage C4env (C4draws n) ps m) 2
      ⟨0, C4queue, 6, (Fhcrc.init C4env C4init).1, false, 0⟩).1.countP
        (fun m => Fhcrc.isDeath m.kind) = 1 := by
  have henq : enqueueAll 0 ([], 0) (Fhcrc.init C4env C4init).2 = some (C4queue, 6) := by
    norm_num [Fhcrc.init, C4env, C4init, C4queue, enqueueAll, scheduleAt,
      Fhcrc.noScreening, Fhcrc.toLocalised, Fhcrc.toOtherDeath, Fhcrc.toUtility]
  have hhalt : (kernelRun (fun n ps m => Fhcrc.handleMessage C4env (C4draws n) ps m) 2
      ⟨0, C4queue, 6, (Fhcrc.init C4env C4init).1, false, 0⟩).2.2 = RunStatus.halted := by
    norm_num [Fhcrc.init, C4env, C4init, C4queue, C4draws, kernelRun, selectMin,
      enqueueAll, scheduleAt, Fhcrc.handleMessage,
      Fhcrc.toLocalised, Fhcrc.toMetastatic, Fhcrc.toClinicalDiagnosis,
      Fhcrc.toCancerDeath, Fhcrc.toOtherDeath, Fhcrc.toScreen,
      Fhcrc.toBiopsyFollowUpScreen, Fhcrc.toScreenInitiatedBiopsy,
      Fhcrc.toClinicalDiagnosticBiopsy, Fhcrc.toScreenDiagnosis, Fhcrc.toOrganised,
      Fhcrc.toTreatment, Fhcrc.toCM, Fhcrc.toRP, Fhcrc.toRT, Fhcrc.toADT,
      Fhcrc.toUtilityChange, Fhcrc.toUtility]
  exact ⟨henq, hhalt, C4_single_death.1 C4env C4draws C4init 2 C4queue 6 henq hhalt⟩
